import Mathlib

/-!
Verification of rustdoc's token-based syntax highlighter
(`src/librustdoc/html/highlight.rs`).

The classifier consumes a stream of lexer tokens and emits (text, category)
units to a `Writer` sink.  We embed the token stream as a `List Token`: the
external lexer (`rustc_parse::lexer::StringReader`) yields tokens in source
order, each with a span resolving to an exact substring of the source, and
returns an `Eof` token once the input is exhausted.  Pulling the next token
from the lexer is popping the head of the list; the classifier's one-token
lookahead buffer (`peek_token`) is therefore invisible: `peek` reads the head
without popping.  Token payloads that the classifier never reads (literal
symbols, doc-comment text, lifetime names) are omitted; each token instead
carries `text`, the exact source substring for its span
(`SourceMap::span_to_snippet`, called `snip` in the source).

Fallible writer calls model the `io::Result` returns of the `Writer` trait;
`HighlightError.Fatal` additionally models a Rust `panic` (the
`Lit::Bool` branch), which is not a `HighlightError` variant in the source
but an abort of the whole invocation.

The text-escaping utility `crate::html::escape::Escape` is not among the
staged source files.  Modelled from the spec: the "text-escaping utility for
safe embedding in the output format" (HTML), replacing the five
HTML-significant characters by entities, as `escapeHtml` below.
-/

namespace Highlight

/-- Binary-operator token kinds (`rustc` `token::BinOpToken`). -/
inductive BinOpToken
  | Plus | Minus | Star | Slash | Percent | Caret | And | Or | Shl | Shr
  deriving DecidableEq, Repr

/-- Delimiter kinds (`rustc` `token::DelimToken`). -/
inductive DelimToken
  | Paren | Bracket | Brace | NoDelim
  deriving DecidableEq, Repr

/-- Literal kinds (`rustc` `token::LitKind`). -/
inductive LitKind
  | Bool
  | Byte
  | Char
  | Integer
  | Float
  | Str
  | StrRaw (n : Nat)
  | ByteStr
  | ByteStrRaw (n : Nat)
  | Err
  deriving DecidableEq, Repr

/-- Token kinds (`rustc` `token::TokenKind`), with the payloads the classifier
reads: the shebang text (emitted directly), and an identifier's name and
rawness.  Other payloads are never inspected by `write_token`. -/
inductive TokenKind
  | Eq | Lt | Le | EqEq | Ne | Ge | Gt | AndAnd | OrOr | Not | Tilde
  | BinOp (op : BinOpToken)
  | BinOpEq (op : BinOpToken)
  | At | Dot | DotDot | DotDotDot | DotDotEq | Comma | Semi | Colon | ModSep
  | RArrow | LArrow | FatArrow | Pound | Dollar | Question | SingleQuote
  | OpenDelim (d : DelimToken)
  | CloseDelim (d : DelimToken)
  | Literal (kind : LitKind)
  | Ident (name : String) ( is_raw : Bool)
  | Lifetime
  | Interpolated
  | DocComment
  | Whitespace
  | Comment
  | Shebang (sym : String)
  | Unknown
  | Eof
  deriving DecidableEq, Repr

/-- A token paired with the exact source substring its span resolves to
(what `self.snip(token.span)` returns in the source). -/
structure Token where
  kind : TokenKind
  text : String
  deriving DecidableEq, Repr

/-- `Token::is_ident`: whether the token is an identifier token. -/
def Token.is_ident (t : Token) : Bool :=
  match t.kind with
  | .Ident _ _ => true
  | _ => false

/-- How a span of text is classified (`enum Class` in the source). -/
inductive Class
  | None
  | Comment
  | DocComment
  | Attribute
  | KeyWord
  | RefKeyWord
  | Self_
  | Op
  | Macro
  | MacroNonTerminal
  | String
  | Number
  | Bool
  | Ident
  | Lifetime
  | PreludeTy
  | PreludeVal
  | QuestionMark
  deriving DecidableEq, Repr

/-- Abbreviation so that `String` can be written inside the `Class`
namespace, where the constructor `Class.String` shadows it. -/
abbrev Str := String

/-- `Class::rustdoc_class`: the CSS class expected by rustdoc for each `Class`. -/
def Class.rustdoc_class : Class → Str
  | .None => ""
  | .Comment => "comment"
  | .DocComment => "doccomment"
  | .Attribute => "attribute"
  | .KeyWord => "kw"
  | .RefKeyWord => "kw-2"
  | .Self_ => "self"
  | .Op => "op"
  | .Macro => "macro"
  | .MacroNonTerminal => "macro-nonterminal"
  | .String => "string"
  | .Number => "number"
  | .Bool => "bool-val"
  | .Ident => "ident"
  | .Lifetime => "lifetime"
  | .PreludeTy => "prelude-ty"
  | .PreludeVal => "prelude-val"
  | .QuestionMark => "question-mark"

/-- Modelled from the spec: the text-escaping utility
(`crate::html::escape::Escape`, not among the staged files) for safe
embedding in HTML, on one character. -/
def escapeChar (ch : Char) : String :=
  if ch = '>' then "&gt;"
  else if ch = '<' then "&lt;"
  else if ch = '&' then "&amp;"
  else if ch = '\'' then "&#39;"
  else if ch = '"' then "&quot;"
  else String.singleton ch

/-- HTML-escape every character of a list. -/
def escapeList : List Char → String
  | [] => ""
  | ch :: cs => escapeChar ch ++ escapeList cs

/-- Modelled from the spec: the text-escaping utility for safe embedding in
the output format (HTML), on a string. -/
def escapeHtml (s : String) : String :=
  escapeList s.data

/-- Modelled from the spec: the Token Source flags reserved keywords
(`Token::is_reserved_ident` of the `syntax` crate, not among the staged
files); it holds of a non-raw identifier whose name is a Rust reserved word. -/
def isReservedKw (name : String) : Bool :=
  name ∈ ["as", "break", "const", "continue", "crate", "dyn", "else", "enum",
    "extern", "false", "fn", "for", "if", "impl", "in", "let", "loop",
    "match", "mod", "move", "mut", "pub", "ref", "return", "self", "Self",
    "static", "struct", "super", "trait", "true", "type", "unsafe", "use",
    "where", "while", "abstract", "become", "box", "do", "final", "macro",
    "override", "priv", "typeof", "unsized", "virtual", "yield", "async",
    "await", "try", "union", "_"]

/-- `Token::is_reserved_ident` as a function of the identifier payload:
false for raw identifiers. -/
def is_reserved_ident (name : String) ( is_raw : Bool) : Bool :=
  !is_raw && isReservedKw name

/-- The classifier's mutable session flags (`Classifier::new` starts them all
false).  The lookahead buffer needs no field here: the token stream is a list
and `peek` reads its head. -/
structure CState where
  inAttribute : Bool
  inMacro : Bool
  inMacroNonterminal : Bool
  deriving DecidableEq, Repr

/-- The state `Classifier::new` builds: every flag false. -/
def newClassifier : CState := ⟨false, false, false⟩

/-- An I/O error reported by a writer call (payload irrelevant to the
classifier, which only forwards it). -/
structure IoErr where
  code : Nat
  deriving DecidableEq, Repr

/-- `enum HighlightError`, plus `Fatal`, which models a Rust `panic`
unwinding out of `write_token` (the `Lit::Bool` branch); a panic is not a
`HighlightError` variant in the source but aborts the invocation. -/
inductive HighlightError
  | LexError
  | IoError (e : IoErr)
  | Fatal (msg : String)
  deriving DecidableEq, Repr

/-- The `Writer` trait: a sink with `enter_span`, `exit_span` and `string`,
each of which may fail with an I/O error. -/
structure Writer (σ : Type) where
  enter_span : σ → Class → Except IoErr σ
  exit_span : σ → Except IoErr σ
  string : σ → String → Class → Except IoErr σ

/-- The `?`-conversion `From<io::Error> for HighlightError` applied to a
writer-call result. -/
def liftW {α : Type} : Except IoErr α → Except HighlightError α
  | .ok a => .ok a
  | .error e => .error (.IoError e)

/-- The token the lexer returns at end of input. -/
def eofToken : Token := ⟨.Eof, ""⟩

/-- `Classifier::try_next_token`: pop the next token; an `Unknown`-kind token
is a lex error.  On an exhausted stream the lexer keeps returning `Eof`. -/
def try_next_token : List Token → Except HighlightError (Token × List Token)
  | [] => .ok (eofToken, [])
  | t :: rest => if t.kind = .Unknown then .error .LexError else .ok (t, rest)

/-- `Classifier::peek`: read the next token without consuming it; an
`Unknown`-kind token is a lex error. -/
def peekT : List Token → Except HighlightError Token
  | [] => .ok eofToken
  | t :: _ => if t.kind = .Unknown then .error .LexError else .ok t

/-- The shared final emission of `write_token`: escape the token's source
snippet and emit it as one `(text, category)` unit, leaving the stream and
flags as given. -/
def emit {σ : Type} (w : Writer σ) (ts : List Token) (c : CState) (t : Token)
    (s : σ) (klass : Class) : Except HighlightError (List Token × CState × σ) :=
  (liftW (w.string s (escapeHtml t.text) klass)).map (fun s' => (ts, c, s'))

/-- `Classifier::write_token`: classify one token and emit to the writer.
Returns the remaining stream (the `Pound` case may consume a following `!`)
and the updated flags. -/
def write_token {σ : Type} (w : Writer σ) (ts : List Token) (c : CState)
    (t : Token) (s : σ) : Except HighlightError (List Token × CState × σ) :=
  match t.kind with
  | .Shebang sym =>
      (liftW (w.string s (escapeHtml sym) Class.None)).map (fun s' => (ts, c, s'))
  | .Whitespace => emit w ts c t s Class.None
  | .Unknown => emit w ts c t s Class.None
  | .Comment => emit w ts c t s Class.Comment
  | .DocComment => emit w ts c t s Class.DocComment
  | .BinOp op =>
      if op = .And ∨ op = .Star then
        match peekT ts with
        | .error e => .error e
        | .ok pt =>
            if pt.kind = .Whitespace then emit w ts c t s Class.Op
            else emit w ts c t s Class.RefKeyWord
      else emit w ts c t s Class.Op
  | .Not =>
      if c.inMacro then emit w ts { c with inMacro := false } t s Class.Macro
      else emit w ts c t s Class.Op
  | .Eq => emit w ts c t s Class.Op
  | .Lt => emit w ts c t s Class.Op
  | .Le => emit w ts c t s Class.Op
  | .EqEq => emit w ts c t s Class.Op
  | .Ne => emit w ts c t s Class.Op
  | .Ge => emit w ts c t s Class.Op
  | .Gt => emit w ts c t s Class.Op
  | .AndAnd => emit w ts c t s Class.Op
  | .OrOr => emit w ts c t s Class.Op
  | .RArrow => emit w ts c t s Class.Op
  | .BinOpEq _ => emit w ts c t s Class.Op
  | .FatArrow => emit w ts c t s Class.Op
  | .Dot => emit w ts c t s Class.None
  | .DotDot => emit w ts c t s Class.None
  | .DotDotDot => emit w ts c t s Class.None
  | .DotDotEq => emit w ts c t s Class.None
  | .Comma => emit w ts c t s Class.None
  | .Semi => emit w ts c t s Class.None
  | .Colon => emit w ts c t s Class.None
  | .ModSep => emit w ts c t s Class.None
  | .LArrow => emit w ts c t s Class.None
  | .OpenDelim _ => emit w ts c t s Class.None
  | .CloseDelim .Brace => emit w ts c t s Class.None
  | .CloseDelim .Paren => emit w ts c t s Class.None
  | .CloseDelim .NoDelim => emit w ts c t s Class.None
  | .Question => emit w ts c t s Class.QuestionMark
  | .Dollar =>
      match peekT ts with
      | .error e => .error e
      | .ok pt =>
          if pt.is_ident then
            emit w ts { c with inMacroNonterminal := true } t s Class.MacroNonTerminal
          else emit w ts c t s Class.None
  | .Pound =>
      match peekT ts with
      | .error e => .error e
      | .ok pt =>
          if pt.kind = .Not then
            match try_next_token ts with
            | .error e => .error e
            | .ok (_, ts') =>
                match peekT ts' with
                | .error e => .error e
                | .ok pt2 =>
                    if pt2.kind = .OpenDelim .Bracket then
                      ((liftW (w.enter_span s Class.Attribute)).bind (fun s1 =>
                        (liftW (w.string s1 "#" Class.None)).bind (fun s2 =>
                          liftW (w.string s2 "!" Class.None)))).map
                        (fun s3 => (ts', { c with inAttribute := true }, s3))
                    else
                      ((liftW (w.string s "#" Class.None)).bind (fun s2 =>
                        liftW (w.string s2 "!" Class.None))).map
                        (fun s3 => (ts', c, s3))
          else if pt.kind = .OpenDelim .Bracket then
            ((liftW (w.enter_span s Class.Attribute)).bind (fun s1 =>
              liftW (w.string s1 "#" Class.None))).map
              (fun s2 => (ts, { c with inAttribute := true }, s2))
          else
            (liftW (w.string s "#" Class.None)).map (fun s2 => (ts, c, s2))
  | .CloseDelim .Bracket =>
      if c.inAttribute then
        ((liftW (w.string s "]" Class.None)).bind (fun s1 =>
          liftW (w.exit_span s1))).map
          (fun s2 => (ts, { c with inAttribute := false }, s2))
      else emit w ts c t s Class.None
  | .Literal lit =>
      match lit with
      | .Byte => emit w ts c t s Class.String
      | .Char => emit w ts c t s Class.String
      | .Err => emit w ts c t s Class.String
      | .ByteStr => emit w ts c t s Class.String
      | .ByteStrRaw _ => emit w ts c t s Class.String
      | .Str => emit w ts c t s Class.String
      | .StrRaw _ => emit w ts c t s Class.String
      | .Integer => emit w ts c t s Class.Number
      | .Float => emit w ts c t s Class.Number
      | .Bool => .error (.Fatal "literal token contains Lit.Bool")
  | .Ident name is_raw =>
      if (name = "ref" ∨ name = "mut") ∧ is_raw = false then
        emit w ts c t s Class.RefKeyWord
      else if name = "self" ∨ name = "Self" then emit w ts c t s Class.Self_
      else if (name = "false" ∨ name = "true") ∧ is_raw = false then
        emit w ts c t s Class.Bool
      else if name = "Option" ∨ name = "Result" then emit w ts c t s Class.PreludeTy
      else if name = "Some" ∨ name = "None" ∨ name = "Ok" ∨ name = "Err" then
        emit w ts c t s Class.PreludeVal
      else if is_reserved_ident name is_raw then emit w ts c t s Class.KeyWord
      else if c.inMacroNonterminal then
        emit w ts { c with inMacroNonterminal := false } t s Class.MacroNonTerminal
      else
        match peekT ts with
        | .error e => .error e
        | .ok pt =>
            if pt.kind = .Not then emit w ts { c with inMacro := true } t s Class.Macro
            else emit w ts c t s Class.Ident
  | .Lifetime => emit w ts c t s Class.Lifetime
  | .Eof => emit w ts c t s Class.None
  | .Interpolated => emit w ts c t s Class.None
  | .Tilde => emit w ts c t s Class.None
  | .At => emit w ts c t s Class.None
  | .SingleQuote => emit w ts c t s Class.None

/-- A successful `(text, category)`-tuple emission pins the returned stream
and flags to those named in the lambda. -/
theorem map_ok_parts {σ : Type} {E : Except HighlightError σ} {L ts' : List Token}
    {C c' : CState} {s' : σ}
    (h : E.map (fun x => (L, C, x)) = .ok (ts', c', s')) : ts' = L ∧ c' = C := by
  cases E with
  | ok a =>
      simp only [Except.map, Except.ok.injEq, Prod.mk.injEq] at h
      exact ⟨h.1.symm, h.2.1.symm⟩
  | error e => simp [Except.map] at h

/-- A successful pop never lengthens the stream. -/
theorem try_next_token_tail {ts : List Token} {t : Token} {rest : List Token}
    (h : try_next_token ts = .ok (t, rest)) : rest.length ≤ ts.length := by
  cases ts with
  | nil =>
      unfold try_next_token at h
      cases h
      exact le_refl _
  | cons a r =>
      unfold try_next_token at h
      by_cases ha : a.kind = .Unknown
      · simp [ha] at h
      · simp [ha] at h
        cases h.2
        simp

/-- A successful pop returns the whole stream (at its end) or its tail. -/
theorem try_next_token_consumes {ts : List Token} {t : Token} {rest : List Token}
    (h : try_next_token ts = .ok (t, rest)) : rest = ts ∨ rest = ts.tail := by
  cases ts with
  | nil =>
      unfold try_next_token at h
      cases h
      exact Or.inl rfl
  | cons a r =>
      unfold try_next_token at h
      by_cases ha : a.kind = .Unknown
      · simp [ha] at h
      · simp [ha] at h
        exact Or.inr (by rw [← h.2]; rfl)

/-- The stream `write_token` returns is the one it was given, or its tail
(the `#!` case of the `Pound` arm consumes one further token). -/
theorem write_token_consumes {σ : Type} (w : Writer σ) (ts : List Token)
    (c : CState) (t : Token) (s : σ) (ts' : List Token) (c' : CState) (s' : σ)
    (h : write_token w ts c t s = .ok (ts', c', s')) : ts' = ts ∨ ts' = ts.tail := by
  unfold write_token emit at h
  repeat' split at h
  all_goals
    first
      | exact absurd h (by simp)
      | (obtain ⟨h1, -⟩ := map_ok_parts h
         subst h1
         first
           | exact Or.inl rfl
           | (apply try_next_token_consumes
              assumption))

/-- `write_token` consumes at most one further token from the stream. -/
theorem write_token_length {σ : Type} (w : Writer σ) (ts : List Token)
    (c : CState) (t : Token) (s : σ) (ts' : List Token) (c' : CState) (s' : σ)
    (h : write_token w ts c t s = .ok (ts', c', s')) : ts'.length ≤ ts.length := by
  rcases write_token_consumes w ts c t s ts' c' s' h with h1 | h1
  · rw [h1]
  · rw [h1]
    cases ts <;> simp
/-- On a successful pop of a non-`Eof` token the stream shrank. -/
theorem try_next_token_length {ts : List Token} {t : Token} {rest : List Token}
    (h : try_next_token ts = .ok (t, rest)) (hne : ¬ t.kind = .Eof) :
    rest.length < ts.length := by
  cases ts with
  | nil =>
      unfold try_next_token at h
      cases h
      exact absurd rfl hne
  | cons a r =>
      unfold try_next_token at h
      by_cases ha : a.kind = .Unknown
      · simp [ha] at h
      · simp [ha] at h
        cases h.1
        cases h.2
        simp

/-- `Classifier::write_source`: the main loop, pulling tokens until `Eof`
and classifying each one. -/
def write_source {σ : Type} (w : Writer σ) (ts : List Token) (c : CState)
    (s : σ) : Except HighlightError σ :=
  match h1 : try_next_token ts with
  | .error e => .error e
  | .ok (t, rest) =>
      if h2 : t.kind = .Eof then .ok s
      else
        match h3 : write_token w rest c t s with
        | .error e => .error e
        | .ok (rest', c', s') => write_source w rest' c' s'
  termination_by ts.length
  decreasing_by
    exact lt_of_le_of_lt (write_token_length w rest c t s rest' c' s' h3)
      (try_next_token_length h1 h2)

/-- An observable writer event: an `enter_span`, an `exit_span`, or one
`(text, category)` unit passed to `string`. -/
inductive OutEvent
  | enter (k : Class)
  | exit
  | str (text : String) (klass : Class)
  deriving DecidableEq, Repr

/-- The recording writer (the plain-concatenation recorder of the spec's
design notes): appends each callback to an event list and never fails. -/
def eventWriter : Writer (List OutEvent) :=
  ⟨fun s k => .ok (s ++ [.enter k]),
   fun s => .ok (s ++ [.exit]),
   fun s txt k => .ok (s ++ [.str txt k])⟩

/-- The default rustdoc writer (`impl<U: Write> Writer for U`): appends HTML
to a string buffer; a buffer write cannot fail (in the orchestrator `U` is a
`Vec<u8>`). -/
def htmlWriter : Writer String :=
  ⟨fun s k => .ok (s ++ "<span class=\"" ++ k.rustdoc_class ++ "\">"),
   fun s => .ok (s ++ "</span>"),
   fun s txt k =>
     match k with
     | Class.None => .ok (s ++ txt)
     | _ => .ok (s ++ "<span class=\"" ++ k.rustdoc_class ++ "\">" ++ txt ++ "</span>")⟩

/-- A writer whose every call reports the same I/O failure. -/
def failWriter (e : IoErr) : Writer Unit :=
  ⟨fun _ _ => .error e, fun _ => .error e, fun _ _ _ => .error e⟩

/-- The tooltip block `render_with_highlighting` writes before anything else
when a `(tooltip, class)` pair is supplied. -/
def tooltipHtml : Option (String × String) → String
  | none => ""
  | some (tip, cls) =>
      "<div class='information'><div class='tooltip " ++ cls ++
        "'>ⓘ<span class='tooltiptext'>" ++ tip ++ "</span></div></div>"

/-- `write_header`: the outer wrapper opening, with the optional extra class. -/
def write_header (cls : Option String) : String :=
  "<div class=\"example-wrap\"><pre class=\"rust " ++ cls.getD "" ++ "\">\n"

/-- `write_footer`: the outer wrapper closing. -/
def write_footer : String :=
  "</pre></div>\n"

/-- `render_with_highlighting`: the orchestrator.  `tokens` is the stream the
external lexer (`lexer::StringReader::new`) yields for `src`.  A
`HighlightError` of either kind makes `highlight_result` an `Err(())` and the
raw `src` is written into `<pre><code>…</code></pre>` with no escaping and no
styling; a panic (`Fatal`) aborts the invocation, modelled as `none`. -/
def render_with_highlighting (src : String) (tokens : List Token)
    (cls ext : Option String) (tip : Option (String × String)) : Option String :=
  let out := tooltipHtml tip
  match write_source htmlWriter tokens newClassifier "" with
  | .ok highlighted =>
      some (out ++ write_header cls ++ highlighted ++ ext.getD "" ++ write_footer)
  | .error .LexError => some (out ++ "<pre><code>" ++ src ++ "</code></pre>")
  | .error (.IoError _) => some (out ++ "<pre><code>" ++ src ++ "</code></pre>")
  | .error (.Fatal _) => none

/-- Fuel-indexed computation companion of `write_source`: structural
recursion on the fuel so that concrete runs evaluate by `decide`/`rfl`.
`write_source_eq_fuel` below proves it computes `write_source` whenever the
fuel exceeds the stream length, which it is always used with. -/
def write_source_fuel {σ : Type} (w : Writer σ) : Nat → List Token → CState → σ →
    Except HighlightError σ
  | 0, _, _, s => .ok s
  | fuel + 1, ts, c, s =>
      match try_next_token ts with
      | .error e => .error e
      | .ok (t, rest) =>
          if t.kind = .Eof then .ok s
          else
            match write_token w rest c t s with
            | .error e => .error e
            | .ok (rest', c', s') => write_source_fuel w fuel rest' c' s'

/-- The main loop on an exhausted stream: the lexer reports `Eof` and the
loop breaks with the buffer as written so far. -/
theorem write_source_nil {σ : Type} (w : Writer σ) (c : CState) (s : σ) :
    write_source w [] c s = .ok s := by
  rw [write_source]
  simp [try_next_token, eofToken]

/-- The main loop on an `Unknown`-kind head: a lex error. -/
theorem write_source_unknown {σ : Type} (w : Writer σ) {t : Token}
    (rest : List Token) (c : CState) (s : σ) (h : t.kind = .Unknown) :
    write_source w (t :: rest) c s = .error .LexError := by
  rw [write_source]
  split
  · rename_i e heq
    simp only [try_next_token, h, if_pos, Except.error.injEq] at heq
    rw [heq]
  · rename_i t1 rest1 heq
    simp [try_next_token, h] at heq

/-- The main loop on an `Eof`-kind head: the loop breaks. -/
theorem write_source_eof_tok {σ : Type} (w : Writer σ) {t : Token}
    (rest : List Token) (c : CState) (s : σ) (h : t.kind = .Eof) :
    write_source w (t :: rest) c s = .ok s := by
  rw [write_source]
  split
  · rename_i e heq
    simp [try_next_token, h] at heq
  · rename_i t1 rest1 heq
    simp [try_next_token, h] at heq
    obtain ⟨rfl, rfl⟩ := heq
    rw [dif_pos h]

/-- One iteration of the main loop on an ordinary head token. -/
theorem write_source_cons_step {σ : Type} (w : Writer σ) {t : Token}
    (rest : List Token) (c : CState) (s : σ) (h1 : ¬ t.kind = .Unknown)
    (h2 : ¬ t.kind = .Eof) :
    write_source w (t :: rest) c s =
      match write_token w rest c t s with
      | .error e => .error e
      | .ok (rest', c', s') => write_source w rest' c' s' := by
  rw [write_source]
  split
  · rename_i e heq
    simp [try_next_token, h1] at heq
  · rename_i t1 rest1 heq
    simp [try_next_token, h1] at heq
    obtain ⟨rfl, rfl⟩ := heq
    rw [dif_neg h2]
    split
    · rename_i e heq2
      rw [heq2]
    · rename_i rest' c' s' heq2
      rw [heq2]

/-- With fuel exceeding the stream length the fuel-indexed loop computes
`write_source`. -/
theorem write_source_fuel_spec {σ : Type} (w : Writer σ) :
    ∀ (fuel : Nat) (ts : List Token), ts.length < fuel → ∀ (c : CState) (s : σ),
      write_source_fuel w fuel ts c s = write_source w ts c s := by
  intro fuel
  induction fuel with
  | zero => intro ts h; omega
  | succ n ih =>
      intro ts hlen c s
      cases ts with
      | nil =>
          rw [write_source_nil]
          simp [write_source_fuel, try_next_token, eofToken]
      | cons t rest =>
          by_cases hu : t.kind = .Unknown
          · rw [write_source_unknown w rest c s hu]
            simp [write_source_fuel, try_next_token, hu]
          · by_cases he : t.kind = .Eof
            · rw [write_source_eof_tok w rest c s he]
              simp [write_source_fuel, try_next_token, hu, he]
            · rw [write_source_cons_step w rest c s hu he]
              simp only [write_source_fuel, try_next_token, hu, if_false, he]
              cases hw : write_token w rest c t s with
              | error e => simp [hw]
              | ok r =>
                  obtain ⟨rest', c', s'⟩ := r
                  have hr : rest'.length ≤ rest.length :=
                    write_token_length w rest c t s rest' c' s' hw
                  have : rest'.length < n := by
                    simp at hlen
                    omega
                  simp [hw, ih rest' this c' s']

/-- `write_source` as a fuel computation, for evaluating concrete runs. -/
theorem write_source_eq_fuel {σ : Type} (w : Writer σ) (ts : List Token)
    (c : CState) (s : σ) :
    write_source w ts c s = write_source_fuel w (ts.length + 1) ts c s :=
  (write_source_fuel_spec w (ts.length + 1) ts (by omega) c s).symm

/-- Concatenation of a list of strings. -/
def catTexts : List String → String
  | [] => ""
  | x :: xs => x ++ catTexts xs

/-- The source text a token stream spans: the concatenation of the exact
source substrings of its tokens. -/
def srcText : List Token → String
  | [] => ""
  | t :: ts => t.text ++ srcText ts

/-- The texts of the `(text, category)` units among a list of events, in
order, skipping `enter_span`/`exit_span` bookkeeping. -/
def strTexts : List OutEvent → List String
  | [] => []
  | .str txt _ :: es => txt :: strTexts es
  | .enter _ :: es => strTexts es
  | .exit :: es => strTexts es

/-- Number of `enter_span` events in a list. -/
def enterCount : List OutEvent → Nat
  | [] => 0
  | .enter _ :: es => enterCount es + 1
  | .str _ _ :: es => enterCount es
  | .exit :: es => enterCount es

/-- Number of `exit_span` events in a list. -/
def exitCount : List OutEvent → Nat
  | [] => 0
  | .exit :: es => exitCount es + 1
  | .str _ _ :: es => exitCount es
  | .enter _ :: es => exitCount es

/-- Well-formedness of a token's source text, as the real lexer guarantees
it: in the branches where `write_token` emits a fixed string ("#", "!", "]")
or the shebang payload instead of calling `snip`, the fixed string is exactly
the token's source substring. -/
def wfText (t : Token) : Bool :=
  match t.kind with
  | .Pound => t.text == "#"
  | .Not => t.text == "!"
  | .CloseDelim .Bracket => t.text == "]"
  | .Shebang sym => t.text == sym
  | _ => true

/-- A token of a stream the Token Source can fully tokenize: well-formed
text, not the `Lit::Bool` invariant violation, not `Unknown` (a lex error)
and not a premature `Eof`. -/
def okTok (t : Token) : Bool :=
  wfText t && !(t.kind == .Literal .Bool) && !(t.kind == .Unknown) &&
    !(t.kind == .Eof)

/-- A stream the Token Source yields on a fully tokenizable input (before
the final `Eof`). -/
def srcOk (ts : List Token) : Prop := ∀ t ∈ ts, okTok t = true

instance (ts : List Token) : Decidable (srcOk ts) := by
  unfold srcOk
  exact List.decidableBAll _ ts

/-- The head of the stream, if any, is not a lex error (all `peek` needs). -/
def hdOk : List Token → Prop
  | [] => True
  | u :: _ => ¬ u.kind = .Unknown

/-- A token that may lie strictly inside an attribute run (the `#` tokens
have their own non-opener condition, `pndOkB`): not the closing `]` that
ends the run, not a lex error, not a premature `Eof`, and not the
boolean-literal invariant violation. -/
def midTokB (t : Token) : Bool :=
  !(t.kind == .CloseDelim .Bracket) && !(t.kind == .Literal .Bool) &&
    !(t.kind == .Unknown) && !(t.kind == .Eof)

/-- The tokens after a `#` inside an attribute run make it a NON-opener: the
successor is not an opening `[` (that would be a nested `#[` opener), and if
the successor is `!` — which the `#` then consumes — the token after the `!`
is not an opening `[` either (that would be a nested `#![` opener).  An
empty remainder is fine: the token following the run's inside is its closing
`]`, which opens nothing. -/
def pndOkB : List Token → Bool
  | [] => true
  | u :: rest2 =>
      !(u.kind == .OpenDelim .Bracket) &&
        (if u.kind = .Not then
          match rest2 with
          | [] => true
          | v :: _ => !(v.kind == .OpenDelim .Bracket)
        else true)

/-- The inside of an attribute run: every token admissible, and every `#`
among them a non-opener. -/
def midRunB : List Token → Bool
  | [] => true
  | t :: rest =>
      midTokB t && (!(t.kind == .Pound) || pndOkB rest) && midRunB rest

/-- The stream right after the run's inside (its head is the closing `]` in
the intended use): peeking it cannot fail, and it cannot extend a trailing
`#` of the run into an opener. -/
def hdSafeB : List Token → Bool
  | [] => true
  | u :: _ =>
      !(u.kind == .Unknown) && !(u.kind == .Not) &&
        !(u.kind == .OpenDelim .Bracket)

/-- A result that is not the modelled panic. -/
def noFatal {α : Type} (x : Except HighlightError α) : Prop :=
  ∀ m, ¬ x = .error (.Fatal m)

instance (ts : List Token) : Decidable (hdOk ts) :=
  match ts with
  | [] => isTrue trivial
  | u :: _ => inferInstanceAs (Decidable (¬ u.kind = .Unknown))

theorem eventWriter_enter_span (s : List OutEvent) (k : Class) :
    eventWriter.enter_span s k = .ok (s ++ [.enter k]) := rfl

theorem eventWriter_exit_span (s : List OutEvent) :
    eventWriter.exit_span s = .ok (s ++ [.exit]) := rfl

theorem eventWriter_string (s : List OutEvent) (txt : String) (k : Class) :
    eventWriter.string s txt k = .ok (s ++ [.str txt k]) := rfl

theorem strTexts_append (a b : List OutEvent) :
    strTexts (a ++ b) = strTexts a ++ strTexts b := by
  induction a with
  | nil => rfl
  | cons e es ih => cases e <;> simp [strTexts, ih]

theorem catTexts_append (a b : List String) :
    catTexts (a ++ b) = catTexts a ++ catTexts b := by
  induction a with
  | nil => simp [catTexts]
  | cons x xs ih => simp [catTexts, ih, String.append_assoc]

theorem escapeList_append (a b : List Char) :
    escapeList (a ++ b) = escapeList a ++ escapeList b := by
  induction a with
  | nil => simp [escapeList]
  | cons ch cs ih => simp [escapeList, ih, String.append_assoc]

/-- Escaping is a homomorphism for concatenation. -/
theorem escapeHtml_append (a b : String) :
    escapeHtml (a ++ b) = escapeHtml a ++ escapeHtml b := by
  unfold escapeHtml
  rw [String.data_append, escapeList_append]

end Highlight

deriving instance DecidableEq for Except

namespace Highlight

theorem okTok_wf {t : Token} (h : okTok t = true) : wfText t = true := by
  simp [okTok] at h
  tauto

theorem okTok_not_unknown {t : Token} (h : okTok t = true) : ¬ t.kind = .Unknown := by
  simp [okTok] at h
  tauto

theorem okTok_not_eof {t : Token} (h : okTok t = true) : ¬ t.kind = .Eof := by
  simp [okTok] at h
  tauto

theorem okTok_not_bool {t : Token} (h : okTok t = true) : ¬ t.kind = .Literal .Bool := by
  simp [okTok] at h
  tauto

/-- Shape of one `write_token` call to the recording writer on a token of a
fully tokenizable stream: either the token alone is consumed and exactly one
`(text, category)` unit carrying its escaped source text is appended, or the
token is a `#` followed by `!`, both are consumed, and exactly two units
carrying their escaped source texts are appended.  Only `enter_span` and
`exit_span` bookkeeping accompanies the units. -/
theorem write_token_events (ts : List Token) (c : CState) (t : Token)
    (evs : List OutEvent) (ht : okTok t = true) (hts : srcOk ts) :
    (∃ c' new, write_token eventWriter ts c t evs = .ok (ts, c', evs ++ new) ∧
        strTexts new = [escapeHtml t.text]) ∨
    (∃ c' new nt rest2, ts = nt :: rest2 ∧ t.kind = .Pound ∧ nt.kind = .Not ∧
        write_token eventWriter ts c t evs = .ok (rest2, c', evs ++ new) ∧
        strTexts new = [escapeHtml t.text, escapeHtml nt.text]) := by
  obtain ⟨k, txt⟩ := t
  have hstr : ∀ (x : String) (kl : Class), strTexts [OutEvent.str x kl] = [x] := by
    intro x kl
    simp [strTexts]
  cases k <;>
    first
      | (refine Or.inl ⟨c, [.str (escapeHtml txt) Class.None], ?_, hstr _ _⟩
         simp [write_token, emit, liftW, eventWriter, Except.map]
         done)
      | (refine Or.inl ⟨c, [.str (escapeHtml txt) Class.Op], ?_, hstr _ _⟩
         simp [write_token, emit, liftW, eventWriter, Except.map]
         done)
      | (refine Or.inl ⟨c, [.str (escapeHtml txt) Class.Comment], ?_, hstr _ _⟩
         simp [write_token, emit, liftW, eventWriter, Except.map]
         done)
      | (refine Or.inl ⟨c, [.str (escapeHtml txt) Class.DocComment], ?_, hstr _ _⟩
         simp [write_token, emit, liftW, eventWriter, Except.map]
         done)
      | (refine Or.inl ⟨c, [.str (escapeHtml txt) Class.QuestionMark], ?_, hstr _ _⟩
         simp [write_token, emit, liftW, eventWriter, Except.map]
         done)
      | (refine Or.inl ⟨c, [.str (escapeHtml txt) Class.Lifetime], ?_, hstr _ _⟩
         simp [write_token, emit, liftW, eventWriter, Except.map]
         done)
      | skip
  case Shebang sym =>
    have hw : txt = sym := by
      have := okTok_wf ht
      simp [wfText] at this
      exact this
    subst hw
    exact Or.inl ⟨c, [.str (escapeHtml txt) Class.None],
      by simp [write_token, liftW, eventWriter, Except.map], hstr _ _⟩
  case BinOp op =>
    by_cases hop : op = .And ∨ op = .Star
    · cases ts with
      | nil =>
          exact Or.inl ⟨c, [.str (escapeHtml txt) Class.RefKeyWord],
            by simp [write_token, hop, peekT, eofToken, emit, liftW, eventWriter,
              Except.map], hstr _ _⟩
      | cons u rest =>
          have hu := okTok_not_unknown (hts u (by simp))
          by_cases hw : u.kind = .Whitespace
          · exact Or.inl ⟨c, [.str (escapeHtml txt) Class.Op],
              by simp [write_token, hop, peekT, hu, hw, emit, liftW, eventWriter,
                Except.map], hstr _ _⟩
          · exact Or.inl ⟨c, [.str (escapeHtml txt) Class.RefKeyWord],
              by simp [write_token, hop, peekT, hu, hw, emit, liftW, eventWriter,
                Except.map], hstr _ _⟩
    · exact Or.inl ⟨c, [.str (escapeHtml txt) Class.Op],
        by simp [write_token, hop, emit, liftW, eventWriter, Except.map], hstr _ _⟩
  case Not =>
    by_cases hm : c.inMacro
    · exact Or.inl ⟨{ c with inMacro := false }, [.str (escapeHtml txt) Class.Macro],
        by simp [write_token, hm, emit, liftW, eventWriter, Except.map], hstr _ _⟩
    · exact Or.inl ⟨c, [.str (escapeHtml txt) Class.Op],
        by simp [write_token, hm, emit, liftW, eventWriter, Except.map], hstr _ _⟩
  case Dollar =>
    cases ts with
    | nil =>
        exact Or.inl ⟨c, [.str (escapeHtml txt) Class.None],
          by simp [write_token, peekT, eofToken, Token.is_ident, emit, liftW,
            eventWriter, Except.map], hstr _ _⟩
    | cons u rest =>
        have hu := okTok_not_unknown (hts u (by simp))
        by_cases hid : u.is_ident = true
        · exact Or.inl ⟨{ c with inMacroNonterminal := true },
            [.str (escapeHtml txt) Class.MacroNonTerminal],
            by simp [write_token, peekT, hu, hid, emit, liftW, eventWriter,
              Except.map], hstr _ _⟩
        · exact Or.inl ⟨c, [.str (escapeHtml txt) Class.None],
            by simp [write_token, peekT, hu, hid, emit, liftW, eventWriter,
              Except.map], hstr _ _⟩
  case CloseDelim d =>
    cases d with
    | Brace =>
        exact Or.inl ⟨c, [.str (escapeHtml txt) Class.None],
          by simp [write_token, emit, liftW, eventWriter, Except.map], hstr _ _⟩
    | Paren =>
        exact Or.inl ⟨c, [.str (escapeHtml txt) Class.None],
          by simp [write_token, emit, liftW, eventWriter, Except.map], hstr _ _⟩
    | NoDelim =>
        exact Or.inl ⟨c, [.str (escapeHtml txt) Class.None],
          by simp [write_token, emit, liftW, eventWriter, Except.map], hstr _ _⟩
    | Bracket =>
        have htxt : txt = "]" := by
          have := okTok_wf ht
          simp [wfText] at this
          exact this
        by_cases ha : c.inAttribute
        · refine Or.inl ⟨{ c with inAttribute := false },
            [.str "]" Class.None, .exit], ?_, ?_⟩
          · simp [write_token, ha, liftW, eventWriter, Except.map, Except.bind]
          · rw [htxt]
            simp only [strTexts]
            decide
        · refine Or.inl ⟨c, [.str (escapeHtml txt) Class.None], ?_, hstr _ _⟩
          simp [write_token, ha, emit, liftW, eventWriter, Except.map]
  case Literal lit =>
    cases lit <;>
      first
        | (refine Or.inl ⟨c, [.str (escapeHtml txt) Class.String], ?_, hstr _ _⟩
           simp [write_token, emit, liftW, eventWriter, Except.map]
           done)
        | (refine Or.inl ⟨c, [.str (escapeHtml txt) Class.Number], ?_, hstr _ _⟩
           simp [write_token, emit, liftW, eventWriter, Except.map]
           done)
        | (exact absurd ht (by simp [okTok, wfText]))
  case Pound =>
    have htxt : txt = "#" := by
      have := okTok_wf ht
      simp [wfText] at this
      exact this
    subst htxt
    cases ts with
    | nil =>
        refine Or.inl ⟨c, [.str "#" Class.None], ?_, ?_⟩
        · simp [write_token, peekT, eofToken, liftW, eventWriter, Except.map]
        · simp only [strTexts]
          decide
    | cons u rest =>
        have hu := okTok_not_unknown (hts u (by simp))
        by_cases hn : u.kind = .Not
        · have hut : u.text = "!" := by
            have := okTok_wf (hts u (by simp))
            simp [wfText, hn] at this
            exact this
          cases rest with
          | nil =>
              refine Or.inr ⟨c, [.str "#" Class.None, .str "!" Class.None], u, [],
                rfl, rfl, hn, ?_, ?_⟩
              · simp [write_token, peekT, hu, hn, try_next_token, eofToken, liftW,
                  eventWriter, Except.map, Except.bind]
              · rw [hut]
                simp only [strTexts]
                decide
          | cons v rest3 =>
              have hv := okTok_not_unknown (hts v (by simp))
              by_cases hb : v.kind = .OpenDelim .Bracket
              · refine Or.inr ⟨{ c with inAttribute := true },
                  [.enter .Attribute, .str "#" Class.None, .str "!" Class.None],
                  u, v :: rest3, rfl, rfl, hn, ?_, ?_⟩
                · simp [write_token, peekT, hu, hn, hb, hv, try_next_token, liftW,
                    eventWriter, Except.map, Except.bind]
                · rw [hut]
                  simp only [strTexts]
                  decide
              · refine Or.inr ⟨c, [.str "#" Class.None, .str "!" Class.None],
                  u, v :: rest3, rfl, rfl, hn, ?_, ?_⟩
                · simp [write_token, peekT, hu, hn, hb, hv, try_next_token, liftW,
                    eventWriter, Except.map, Except.bind]
                · rw [hut]
                  simp only [strTexts]
                  decide
        · by_cases hb : u.kind = .OpenDelim .Bracket
          · refine Or.inl ⟨{ c with inAttribute := true },
              [.enter .Attribute, .str "#" Class.None], ?_, ?_⟩
            · simp [write_token, peekT, hu, hn, hb, liftW, eventWriter, Except.map,
                Except.bind]
            · simp only [strTexts]
              decide
          · refine Or.inl ⟨c, [.str "#" Class.None], ?_, ?_⟩
            · simp [write_token, peekT, hu, hn, hb, liftW, eventWriter, Except.map]
            · simp only [strTexts]
              decide
  case Ident name is_raw =>
    by_cases h1 : (name = "ref" ∨ name = "mut") ∧ is_raw = false
    · refine Or.inl ⟨c, [.str (escapeHtml txt) Class.RefKeyWord], ?_, hstr _ _⟩
      simp only [write_token]
      rw [if_pos h1]
      simp [emit, liftW, eventWriter, Except.map]
    · by_cases h2 : name = "self" ∨ name = "Self"
      · refine Or.inl ⟨c, [.str (escapeHtml txt) Class.Self_], ?_, hstr _ _⟩
        simp only [write_token]
        rw [if_neg h1, if_pos h2]
        simp [emit, liftW, eventWriter, Except.map]
      · by_cases h3 : (name = "false" ∨ name = "true") ∧ is_raw = false
        · refine Or.inl ⟨c, [.str (escapeHtml txt) Class.Bool], ?_, hstr _ _⟩
          simp only [write_token]
          rw [if_neg h1, if_neg h2, if_pos h3]
          simp [emit, liftW, eventWriter, Except.map]
        · by_cases h4 : name = "Option" ∨ name = "Result"
          · refine Or.inl ⟨c, [.str (escapeHtml txt) Class.PreludeTy], ?_, hstr _ _⟩
            simp only [write_token]
            rw [if_neg h1, if_neg h2, if_neg h3, if_pos h4]
            simp [emit, liftW, eventWriter, Except.map]
          · by_cases h5 : name = "Some" ∨ name = "None" ∨ name = "Ok" ∨ name = "Err"
            · refine Or.inl ⟨c, [.str (escapeHtml txt) Class.PreludeVal], ?_, hstr _ _⟩
              simp only [write_token]
              rw [if_neg h1, if_neg h2, if_neg h3, if_neg h4, if_pos h5]
              simp [emit, liftW, eventWriter, Except.map]
            · by_cases h6 : is_reserved_ident name is_raw = true
              · refine Or.inl ⟨c, [.str (escapeHtml txt) Class.KeyWord], ?_, hstr _ _⟩
                simp only [write_token]
                rw [if_neg h1, if_neg h2, if_neg h3, if_neg h4, if_neg h5]
                simp [h6, emit, liftW, eventWriter, Except.map]
              · by_cases h7 : c.inMacroNonterminal = true
                · refine Or.inl ⟨{ c with inMacroNonterminal := false },
                    [.str (escapeHtml txt) Class.MacroNonTerminal], ?_, hstr _ _⟩
                  simp only [write_token]
                  rw [if_neg h1, if_neg h2, if_neg h3, if_neg h4, if_neg h5]
                  simp [h6, h7, emit, liftW, eventWriter, Except.map]
                · cases ts with
                  | nil =>
                      refine Or.inl ⟨c, [.str (escapeHtml txt) Class.Ident], ?_,
                        hstr _ _⟩
                      simp only [write_token]
                      rw [if_neg h1, if_neg h2, if_neg h3, if_neg h4, if_neg h5]
                      simp [h6, h7, peekT, eofToken, emit, liftW, eventWriter,
                        Except.map]
                  | cons u rest =>
                      have hu := okTok_not_unknown (hts u (by simp))
                      by_cases h8 : u.kind = .Not
                      · refine Or.inl ⟨{ c with inMacro := true },
                          [.str (escapeHtml txt) Class.Macro], ?_, hstr _ _⟩
                        simp only [write_token]
                        rw [if_neg h1, if_neg h2, if_neg h3, if_neg h4, if_neg h5]
                        simp [h6, h7, h8, peekT, hu, emit, liftW, eventWriter,
                          Except.map]
                      · refine Or.inl ⟨c, [.str (escapeHtml txt) Class.Ident], ?_,
                          hstr _ _⟩
                        simp only [write_token]
                        rw [if_neg h1, if_neg h2, if_neg h3, if_neg h4, if_neg h5]
                        simp [h6, h7, h8, peekT, hu, emit, liftW, eventWriter,
                          Except.map]

end Highlight

namespace Highlight

/-- Main-loop accounting on a fully tokenizable stream: the run succeeds,
appends one `(text, category)` unit per source token, and the concatenation
of the unit texts is exactly the escaped source text. -/
theorem write_source_events :
    ∀ (n : Nat) (ts : List Token), ts.length ≤ n → srcOk ts →
      ∀ (c : CState) (evs : List OutEvent),
      ∃ new, write_source eventWriter ts c evs = .ok (evs ++ new) ∧
        (strTexts new).length = ts.length ∧
        catTexts (strTexts new) = escapeHtml (srcText ts) := by
  intro n
  induction n with
  | zero =>
      intro ts h _ c evs
      have hnil : ts = [] := List.length_eq_zero.mp (Nat.le_zero.mp h)
      subst hnil
      refine ⟨[], ?_, by decide, by decide⟩
      rw [write_source_nil]
      simp
  | succ n ih =>
      intro ts hlen hok c evs
      cases ts with
      | nil =>
          refine ⟨[], ?_, by decide, by decide⟩
          rw [write_source_nil]
          simp
      | cons t rest =>
          have hokt := hok t (by simp)
          have hrest : srcOk rest := fun u hu => hok u (by simp [hu])
          rw [write_source_cons_step eventWriter rest c evs
            (okTok_not_unknown hokt) (okTok_not_eof hokt)]
          rcases write_token_events rest c t evs hokt hrest with
            ⟨c', new1, heq, htexts⟩ | ⟨c', new1, nt, rest2, hts_eq, -, -, heq, htexts⟩
          · rw [heq]
            obtain ⟨new2, h2, hlen2, hcat2⟩ :=
              ih rest (by simp at hlen; omega) hrest c' (evs ++ new1)
            refine ⟨new1 ++ new2, ?_, ?_, ?_⟩
            · show write_source eventWriter rest c' (evs ++ new1) =
                .ok (evs ++ (new1 ++ new2))
              rw [h2, List.append_assoc]
            · rw [strTexts_append, htexts]
              simp [hlen2]
            · rw [strTexts_append, htexts, catTexts_append]
              simp only [catTexts, srcText]
              rw [hcat2, escapeHtml_append]
              simp
          · subst hts_eq
            rw [heq]
            have hrest2 : srcOk rest2 := fun u hu => hrest u (by simp [hu])
            obtain ⟨new2, h2, hlen2, hcat2⟩ :=
              ih rest2 (by simp at hlen; omega) hrest2 c' (evs ++ new1)
            refine ⟨new1 ++ new2, ?_, ?_, ?_⟩
            · show write_source eventWriter rest2 c' (evs ++ new1) =
                .ok (evs ++ (new1 ++ new2))
              rw [h2, List.append_assoc]
            · rw [strTexts_append, htexts]
              simp [hlen2]
            · rw [strTexts_append, htexts, catTexts_append]
              simp only [catTexts, srcText]
              rw [hcat2, escapeHtml_append, escapeHtml_append]
              simp [String.append_assoc]

end Highlight

namespace Highlight

/-- A token that is neither `#` nor `]` (nor the fatal boolean literal)
appends exactly one `(text, category)` unit — never an `enter_span` or
`exit_span`, never category Attribute — and leaves `in_attribute` unchanged. -/
theorem write_token_no_attr (ts : List Token) (c : CState) (t : Token)
    (evs : List OutEvent)
    (hp : ¬ t.kind = .Pound) (hcb : ¬ t.kind = .CloseDelim .Bracket)
    (hlb : ¬ t.kind = .Literal .Bool) (hts : hdOk ts) :
    ∃ c' x kl, write_token eventWriter ts c t evs = .ok (ts, c', evs ++ [.str x kl]) ∧
      ¬ kl = Class.Attribute ∧ c'.inAttribute = c.inAttribute := by
  obtain ⟨k, txt⟩ := t
  cases k <;>
    first
      | (refine ⟨c, escapeHtml txt, Class.None, ?_, by decide, rfl⟩
         simp [write_token, emit, liftW, eventWriter, Except.map]
         done)
      | (refine ⟨c, escapeHtml txt, Class.Op, ?_, by decide, rfl⟩
         simp [write_token, emit, liftW, eventWriter, Except.map]
         done)
      | (refine ⟨c, escapeHtml txt, Class.Comment, ?_, by decide, rfl⟩
         simp [write_token, emit, liftW, eventWriter, Except.map]
         done)
      | (refine ⟨c, escapeHtml txt, Class.DocComment, ?_, by decide, rfl⟩
         simp [write_token, emit, liftW, eventWriter, Except.map]
         done)
      | (refine ⟨c, escapeHtml txt, Class.QuestionMark, ?_, by decide, rfl⟩
         simp [write_token, emit, liftW, eventWriter, Except.map]
         done)
      | (refine ⟨c, escapeHtml txt, Class.Lifetime, ?_, by decide, rfl⟩
         simp [write_token, emit, liftW, eventWriter, Except.map]
         done)
      | skip
  case Shebang sym =>
    refine ⟨c, escapeHtml sym, Class.None, ?_, by decide, rfl⟩
    simp [write_token, liftW, eventWriter, Except.map]
  case BinOp op =>
    by_cases hop : op = .And ∨ op = .Star
    · cases ts with
      | nil =>
          refine ⟨c, escapeHtml txt, Class.RefKeyWord, ?_, by decide, rfl⟩
          simp [write_token, hop, peekT, eofToken, emit, liftW, eventWriter,
            Except.map]
      | cons u rest =>
          have hu : ¬ u.kind = .Unknown := hts
          by_cases hw : u.kind = .Whitespace
          · refine ⟨c, escapeHtml txt, Class.Op, ?_, by decide, rfl⟩
            simp [write_token, hop, peekT, hu, hw, emit, liftW, eventWriter,
              Except.map]
          · refine ⟨c, escapeHtml txt, Class.RefKeyWord, ?_, by decide, rfl⟩
            simp [write_token, hop, peekT, hu, hw, emit, liftW, eventWriter,
              Except.map]
    · refine ⟨c, escapeHtml txt, Class.Op, ?_, by decide, rfl⟩
      simp [write_token, hop, emit, liftW, eventWriter, Except.map]
  case Not =>
    by_cases hm : c.inMacro
    · refine ⟨{ c with inMacro := false }, escapeHtml txt, Class.Macro, ?_,
        by decide, rfl⟩
      simp [write_token, hm, emit, liftW, eventWriter, Except.map]
    · refine ⟨c, escapeHtml txt, Class.Op, ?_, by decide, rfl⟩
      simp [write_token, hm, emit, liftW, eventWriter, Except.map]
  case Dollar =>
    cases ts with
    | nil =>
        refine ⟨c, escapeHtml txt, Class.None, ?_, by decide, rfl⟩
        simp [write_token, peekT, eofToken, Token.is_ident, emit, liftW,
          eventWriter, Except.map]
    | cons u rest =>
        have hu : ¬ u.kind = .Unknown := hts
        by_cases hid : u.is_ident = true
        · refine ⟨{ c with inMacroNonterminal := true }, escapeHtml txt,
            Class.MacroNonTerminal, ?_, by decide, rfl⟩
          simp [write_token, peekT, hu, hid, emit, liftW, eventWriter, Except.map]
        · refine ⟨c, escapeHtml txt, Class.None, ?_, by decide, rfl⟩
          simp [write_token, peekT, hu, hid, emit, liftW, eventWriter, Except.map]
  case Pound => exact absurd rfl hp
  case CloseDelim d =>
    cases d with
    | Brace =>
        refine ⟨c, escapeHtml txt, Class.None, ?_, by decide, rfl⟩
        simp [write_token, emit, liftW, eventWriter, Except.map]
    | Paren =>
        refine ⟨c, escapeHtml txt, Class.None, ?_, by decide, rfl⟩
        simp [write_token, emit, liftW, eventWriter, Except.map]
    | NoDelim =>
        refine ⟨c, escapeHtml txt, Class.None, ?_, by decide, rfl⟩
        simp [write_token, emit, liftW, eventWriter, Except.map]
    | Bracket => exact absurd rfl hcb
  case Literal lit =>
    cases lit <;>
      first
        | (refine ⟨c, escapeHtml txt, Class.String, ?_, by decide, rfl⟩
           simp [write_token, emit, liftW, eventWriter, Except.map]
           done)
        | (refine ⟨c, escapeHtml txt, Class.Number, ?_, by decide, rfl⟩
           simp [write_token, emit, liftW, eventWriter, Except.map]
           done)
        | (exact absurd rfl hlb)
  case Ident name is_raw =>
    by_cases h1 : (name = "ref" ∨ name = "mut") ∧ is_raw = false
    · refine ⟨c, escapeHtml txt, Class.RefKeyWord, ?_, by decide, rfl⟩
      simp only [write_token]
      rw [if_pos h1]
      simp [emit, liftW, eventWriter, Except.map]
    · by_cases h2 : name = "self" ∨ name = "Self"
      · refine ⟨c, escapeHtml txt, Class.Self_, ?_, by decide, rfl⟩
        simp only [write_token]
        rw [if_neg h1, if_pos h2]
        simp [emit, liftW, eventWriter, Except.map]
      · by_cases h3 : (name = "false" ∨ name = "true") ∧ is_raw = false
        · refine ⟨c, escapeHtml txt, Class.Bool, ?_, by decide, rfl⟩
          simp only [write_token]
          rw [if_neg h1, if_neg h2, if_pos h3]
          simp [emit, liftW, eventWriter, Except.map]
        · by_cases h4 : name = "Option" ∨ name = "Result"
          · refine ⟨c, escapeHtml txt, Class.PreludeTy, ?_, by decide, rfl⟩
            simp only [write_token]
            rw [if_neg h1, if_neg h2, if_neg h3, if_pos h4]
            simp [emit, liftW, eventWriter, Except.map]
          · by_cases h5 : name = "Some" ∨ name = "None" ∨ name = "Ok" ∨ name = "Err"
            · refine ⟨c, escapeHtml txt, Class.PreludeVal, ?_, by decide, rfl⟩
              simp only [write_token]
              rw [if_neg h1, if_neg h2, if_neg h3, if_neg h4, if_pos h5]
              simp [emit, liftW, eventWriter, Except.map]
            · by_cases h6 : is_reserved_ident name is_raw = true
              · refine ⟨c, escapeHtml txt, Class.KeyWord, ?_, by decide, rfl⟩
                simp only [write_token]
                rw [if_neg h1, if_neg h2, if_neg h3, if_neg h4, if_neg h5]
                simp [h6, emit, liftW, eventWriter, Except.map]
              · by_cases h7 : c.inMacroNonterminal = true
                · refine ⟨{ c with inMacroNonterminal := false }, escapeHtml txt,
                    Class.MacroNonTerminal, ?_, by decide, rfl⟩
                  simp only [write_token]
                  rw [if_neg h1, if_neg h2, if_neg h3, if_neg h4, if_neg h5]
                  simp [h6, h7, emit, liftW, eventWriter, Except.map]
                · cases ts with
                  | nil =>
                      refine ⟨c, escapeHtml txt, Class.Ident, ?_, by decide, rfl⟩
                      simp only [write_token]
                      rw [if_neg h1, if_neg h2, if_neg h3, if_neg h4, if_neg h5]
                      simp [h6, h7, peekT, eofToken, emit, liftW, eventWriter,
                        Except.map]
                  | cons u rest =>
                      have hu : ¬ u.kind = .Unknown := hts
                      by_cases h8 : u.kind = .Not
                      · refine ⟨{ c with inMacro := true }, escapeHtml txt,
                          Class.Macro, ?_, by decide, rfl⟩
                        simp only [write_token]
                        rw [if_neg h1, if_neg h2, if_neg h3, if_neg h4, if_neg h5]
                        simp [h6, h7, h8, peekT, hu, emit, liftW, eventWriter,
                          Except.map]
                      · refine ⟨c, escapeHtml txt, Class.Ident, ?_, by decide, rfl⟩
                        simp only [write_token]
                        rw [if_neg h1, if_neg h2, if_neg h3, if_neg h4, if_neg h5]
                        simp [h6, h7, h8, peekT, hu, emit, liftW, eventWriter,
                          Except.map]

/-- A `#` whose peeked successor is neither `!` nor an opening bracket is a
bare non-opener: one plain `#` unit, nothing further consumed, flags
untouched. -/
theorem write_token_pound_bare (ts : List Token) (c : CState)
    (evs : List OutEvent) (ptxt : String) (pt : Token)
    (hpeek : peekT ts = .ok pt) (h1 : ¬ pt.kind = .Not)
    (h2 : ¬ pt.kind = .OpenDelim .Bracket) :
    write_token eventWriter ts c ⟨.Pound, ptxt⟩ evs =
      .ok (ts, c, evs ++ [.str "#" Class.None]) := by
  simp [write_token, hpeek, h1, h2, liftW, eventWriter, Except.map]

/-- A `#` followed by `!` with no opening bracket after the `!` consumes the
`!` and emits both marks as plain units; flags untouched. -/
theorem write_token_pound_bang_plain (ts2 : List Token) (c : CState)
    (evs : List OutEvent) (ptxt ntxt : String) (pt2 : Token)
    (hpeek : peekT ts2 = .ok pt2) (hnb : ¬ pt2.kind = .OpenDelim .Bracket) :
    write_token eventWriter (⟨.Not, ntxt⟩ :: ts2) c ⟨.Pound, ptxt⟩ evs =
      .ok (ts2, c, evs ++ [.str "#" Class.None, .str "!" Class.None]) := by
  have hp1 : peekT (⟨.Not, ntxt⟩ :: ts2) = .ok ⟨.Not, ntxt⟩ := by simp [peekT]
  have ht1 : try_next_token (⟨.Not, ntxt⟩ :: ts2) = .ok (⟨.Not, ntxt⟩, ts2) := by
    simp [try_next_token]
  simp [write_token, hp1, ht1, hpeek, hnb, liftW, eventWriter, Except.map,
    Except.bind]

theorem midTokB_spec {t : Token} (h : midTokB t = true) :
    ¬ t.kind = .CloseDelim .Bracket ∧ ¬ t.kind = .Literal .Bool ∧
    ¬ t.kind = .Unknown ∧ ¬ t.kind = .Eof := by
  simp [midTokB] at h
  exact ⟨h.1.1.1, h.1.1.2, h.1.2, h.2⟩

theorem midRunB_cons {t : Token} {rest : List Token}
    (h : midRunB (t :: rest) = true) :
    midTokB t = true ∧ (t.kind = .Pound → pndOkB rest = true) ∧
      midRunB rest = true := by
  have h' : (midTokB t && (!(t.kind == .Pound) || pndOkB rest) &&
      midRunB rest) = true := h
  simp only [Bool.and_eq_true, Bool.or_eq_true, Bool.not_eq_true',
    beq_eq_false_iff_ne, ne_eq] at h'
  refine ⟨h'.1.1, ?_, h'.2⟩
  intro hp
  rcases h'.1.2 with hne | hok
  · exact absurd hp hne
  · exact hok

/-- Processing the inside of an attribute run: admissible tokens — among
them bare `#` marks and `#!` pairs that open nothing — keep `in_attribute`
set, emit only plain `(text, category)` units (no span bookkeeping), and
never use category Attribute. -/
theorem mid_run :
    ∀ (n : Nat) (mid : List Token), mid.length ≤ n →
      ∀ (rest : List Token) (c : CState) (evs : List OutEvent),
      c.inAttribute = true → midRunB mid = true → hdSafeB rest = true →
      ∃ new c', write_source eventWriter (mid ++ rest) c evs =
          write_source eventWriter rest c' (evs ++ new) ∧
        c'.inAttribute = true ∧
        (∀ ev ∈ new, ∃ x kl, ev = .str x kl ∧ ¬ kl = Class.Attribute) := by
  intro n
  induction n with
  | zero =>
      intro mid h rest c evs ha _ _
      have hnil : mid = [] := List.length_eq_zero.mp (Nat.le_zero.mp h)
      subst hnil
      exact ⟨[], c, by simp, ha, by simp⟩
  | succ n ih =>
      intro mid hlen rest c evs ha hmid hsafe
      cases mid with
      | nil => exact ⟨[], c, by simp, ha, by simp⟩
      | cons t mid' =>
          obtain ⟨hm1, hm2, hm3⟩ := midRunB_cons hmid
          obtain ⟨hcb, hbl, hun, hef⟩ := midTokB_spec hm1
          have hlen' : mid'.length ≤ n := by simp at hlen; omega
          by_cases hpk : t.kind = .Pound
          · obtain ⟨tk, ttxt⟩ := t
            simp at hpk
            subst hpk
            have hpnd := hm2 rfl
            cases mid' with
            | nil =>
                have hbare : ∃ pt, peekT rest = .ok pt ∧ ¬ pt.kind = .Not ∧
                    ¬ pt.kind = .OpenDelim .Bracket := by
                  cases rest with
                  | nil => exact ⟨eofToken, rfl, by decide, by decide⟩
                  | cons u urest =>
                      simp [hdSafeB] at hsafe
                      exact ⟨u, by simp [peekT, hsafe.1.1], hsafe.1.2, hsafe.2⟩
                obtain ⟨pt, hpe, hp1, hp2⟩ := hbare
                rw [List.cons_append, List.nil_append,
                  write_source_cons_step eventWriter rest c evs (by simp)
                    (by simp),
                  write_token_pound_bare rest c evs ttxt pt hpe hp1 hp2]
                refine ⟨[.str "#" Class.None], c, rfl, ha, ?_⟩
                intro ev hev
                rcases List.mem_singleton.mp hev with rfl
                exact ⟨"#", Class.None, rfl, by decide⟩
            | cons u mid2 =>
                obtain ⟨hu1, hu2, hu3⟩ := midRunB_cons hm3
                obtain ⟨hucb, hubl, huun, huef⟩ := midTokB_spec hu1
                by_cases hun2 : u.kind = .Not
                · obtain ⟨uk, utxt⟩ := u
                  simp at hun2
                  subst hun2
                  have hb2 : ∃ pt2, peekT (mid2 ++ rest) = .ok pt2 ∧
                      ¬ pt2.kind = .OpenDelim .Bracket := by
                    cases mid2 with
                    | nil =>
                        cases rest with
                        | nil => exact ⟨eofToken, rfl, by decide⟩
                        | cons v vrest =>
                            simp [hdSafeB] at hsafe
                            exact ⟨v, by simp [peekT, hsafe.1.1], hsafe.2⟩
                    | cons v mid3 =>
                        obtain ⟨hv1, -, -⟩ := midRunB_cons hu3
                        obtain ⟨-, -, hvun, -⟩ := midTokB_spec hv1
                        have hvb : ¬ v.kind = .OpenDelim .Bracket := by
                          simp [pndOkB] at hpnd
                          exact hpnd
                        exact ⟨v, by simp [peekT, hvun], hvb⟩
                  obtain ⟨pt2, hpe2, hb⟩ := hb2
                  rw [List.cons_append, List.cons_append,
                    write_source_cons_step eventWriter
                      (⟨.Not, utxt⟩ :: (mid2 ++ rest)) c evs (by simp) (by simp),
                    write_token_pound_bang_plain (mid2 ++ rest) c evs ttxt utxt
                      pt2 hpe2 hb]
                  obtain ⟨new2, c2, h2, ha2, hstrs2⟩ :=
                    ih mid2 (by simp at hlen; omega) rest c
                      (evs ++ [.str "#" Class.None, .str "!" Class.None]) ha
                      hu3 hsafe
                  refine ⟨[.str "#" Class.None, .str "!" Class.None] ++ new2,
                    c2, ?_, ha2, ?_⟩
                  · show write_source eventWriter (mid2 ++ rest) c
                        (evs ++ [.str "#" Class.None, .str "!" Class.None]) =
                      write_source eventWriter rest c2
                        (evs ++ ([.str "#" Class.None, .str "!" Class.None] ++
                          new2))
                    rw [h2, List.append_assoc]
                  · intro ev hev
                    rcases List.mem_append.mp hev with hin | hin
                    · rcases List.mem_cons.mp hin with rfl | hin2
                      · exact ⟨"#", Class.None, rfl, by decide⟩
                      · rcases List.mem_singleton.mp hin2 with rfl
                        exact ⟨"!", Class.None, rfl, by decide⟩
                    · exact hstrs2 ev hin
                · have hub : ¬ u.kind = .OpenDelim .Bracket := by
                    simp [pndOkB, hun2] at hpnd
                    exact hpnd
                  have hpe : peekT ((u :: mid2) ++ rest) = .ok u := by
                    simp [peekT, huun]
                  rw [List.cons_append,
                    write_source_cons_step eventWriter ((u :: mid2) ++ rest) c
                      evs (by simp) (by simp),
                    write_token_pound_bare ((u :: mid2) ++ rest) c evs ttxt u
                      hpe hun2 hub]
                  obtain ⟨new2, c2, h2, ha2, hstrs2⟩ :=
                    ih (u :: mid2) (by simp at hlen; omega) rest c
                      (evs ++ [.str "#" Class.None]) ha hm3 hsafe
                  refine ⟨[.str "#" Class.None] ++ new2, c2, ?_, ha2, ?_⟩
                  · show write_source eventWriter ((u :: mid2) ++ rest) c
                        (evs ++ [.str "#" Class.None]) =
                      write_source eventWriter rest c2
                        (evs ++ ([.str "#" Class.None] ++ new2))
                    rw [h2, List.append_assoc]
                  · intro ev hev
                    rcases List.mem_append.mp hev with hin | hin
                    · rcases List.mem_singleton.mp hin with rfl
                      exact ⟨"#", Class.None, rfl, by decide⟩
                    · exact hstrs2 ev hin
          · have hhd : hdOk (mid' ++ rest) := by
              cases mid' with
              | nil =>
                  show hdOk rest
                  cases rest with
                  | nil => trivial
                  | cons v vrest =>
                      simp [hdSafeB] at hsafe
                      exact hsafe.1.1
              | cons v mid2 =>
                  obtain ⟨hv1, -, -⟩ := midRunB_cons hm3
                  exact (midTokB_spec hv1).2.2.1
            obtain ⟨c', x, kl, heq, hkl, hpre⟩ :=
              write_token_no_attr (mid' ++ rest) c t evs hpk hcb hbl hhd
            rw [List.cons_append,
              write_source_cons_step eventWriter (mid' ++ rest) c evs hun hef,
              heq]
            obtain ⟨new2, c'', h2, ha2, hstrs⟩ :=
              ih mid' hlen' rest c' (evs ++ [.str x kl]) (by rw [hpre, ha])
                hm3 hsafe
            refine ⟨[.str x kl] ++ new2, c'', ?_, ha2, ?_⟩
            · show write_source eventWriter (mid' ++ rest) c'
                  (evs ++ [.str x kl]) =
                write_source eventWriter rest c'' (evs ++ ([.str x kl] ++ new2))
              rw [h2, List.append_assoc]
            · intro ev hev
              rcases List.mem_append.mp hev with hin | hin
              · rcases List.mem_singleton.mp hin with rfl
                exact ⟨x, kl, rfl, hkl⟩
              · exact hstrs ev hin

/-- From a state with `in_attribute` set, the remainder of an attribute run
— its inside, the closing `]`, then any well-formed stream — produces the
inside's plain units, then the `]` unit and the single `exit_span`, then the
remainder's events, continuing with `in_attribute` cleared. -/
theorem attr_run_tail (mid post : List Token) (rbr : Token) (c : CState)
    (evs : List OutEvent) (hr : rbr.kind = .CloseDelim .Bracket)
    (ha : c.inAttribute = true) (hmid : midRunB mid = true)
    (hpost : srcOk post) :
    ∃ midEvs postEvs,
      write_source eventWriter (mid ++ rbr :: post) c evs =
        .ok (evs ++ midEvs ++ [.str "]" Class.None, .exit] ++ postEvs) ∧
      (∀ ev ∈ midEvs, ∃ x kl, ev = .str x kl ∧ ¬ kl = Class.Attribute) := by
  obtain ⟨rk, rtxt⟩ := rbr
  simp at hr
  subst hr
  have hsafe : hdSafeB (⟨.CloseDelim .Bracket, rtxt⟩ :: post) = true := by
    simp [hdSafeB]
  obtain ⟨midEvs, c2, hmrun, hc2, hstrs⟩ :=
    mid_run mid.length mid le_rfl (⟨.CloseDelim .Bracket, rtxt⟩ :: post) c evs
      ha hmid hsafe
  have h3 : write_source eventWriter (⟨.CloseDelim .Bracket, rtxt⟩ :: post) c2
      (evs ++ midEvs) =
      write_source eventWriter post { c2 with inAttribute := false }
        ((evs ++ midEvs) ++ [.str "]" Class.None, .exit]) := by
    rw [write_source_cons_step eventWriter post c2 (evs ++ midEvs) (by simp)
      (by simp)]
    have hwt3 : write_token eventWriter post c2 ⟨.CloseDelim .Bracket, rtxt⟩
        (evs ++ midEvs) =
        .ok (post, { c2 with inAttribute := false },
          (evs ++ midEvs) ++ [.str "]" Class.None, .exit]) := by
      simp [write_token, hc2, liftW, eventWriter, Except.map, Except.bind]
    rw [hwt3]
  obtain ⟨postEvs, hpostrun, -, -⟩ :=
    write_source_events post.length post le_rfl hpost
      { c2 with inAttribute := false }
      ((evs ++ midEvs) ++ [.str "]" Class.None, .exit])
  refine ⟨midEvs, postEvs, ?_, hstrs⟩
  rw [hmrun, h3, hpostrun]

end Highlight

namespace Highlight

theorem noFatal_liftW {α : Type} (e : Except IoErr α) : noFatal (liftW e) := by
  intro m
  cases e <;> simp [liftW]

theorem noFatal_map {α β : Type} {x : Except HighlightError α} {f : α → β}
    (hx : noFatal x) : noFatal (x.map f) := by
  intro m h
  cases x with
  | ok a => simp [Except.map] at h
  | error e =>
      simp [Except.map] at h
      exact hx m (by rw [h])

theorem noFatal_bind {α β : Type} {x : Except HighlightError α}
    {f : α → Except HighlightError β} (hx : noFatal x)
    (hf : ∀ a, noFatal (f a)) : noFatal (x.bind f) := by
  intro m h
  cases x with
  | ok a => exact hf a m (by simpa [Except.bind] using h)
  | error e =>
      simp [Except.bind] at h
      exact hx m (by rw [h])

theorem peekT_noFatal (ts : List Token) : noFatal (peekT ts) := by
  intro m
  cases ts with
  | nil => simp [peekT]
  | cons t rest => by_cases h : t.kind = .Unknown <;> simp [peekT, h]

theorem try_next_token_noFatal (ts : List Token) : noFatal (try_next_token ts) := by
  intro m
  cases ts with
  | nil => simp [try_next_token]
  | cons t rest => by_cases h : t.kind = .Unknown <;> simp [try_next_token, h]

/-- The only fatal (panicking) branch of `write_token` is the boolean-kind
literal. -/
theorem write_token_fatal_kind {σ : Type} (w : Writer σ) (ts : List Token)
    (c : CState) (t : Token) (s : σ) (m : String)
    (h : write_token w ts c t s = .error (.Fatal m)) : t.kind = .Literal .Bool := by
  by_contra hk
  unfold write_token emit at h
  repeat' split at h
  all_goals
    first
      | exact hk (by assumption)
      | exact noFatal_map (noFatal_liftW _) _ h
      | exact noFatal_map (noFatal_bind (noFatal_liftW _)
          (fun a => noFatal_liftW _)) _ h
      | exact noFatal_map (noFatal_bind (noFatal_liftW _)
          (fun a => noFatal_bind (noFatal_liftW _) (fun b => noFatal_liftW _))) _ h
      | (simp only [Except.error.injEq] at h
         subst h
         first
           | exact peekT_noFatal _ _ (by assumption)
           | exact try_next_token_noFatal _ _ (by assumption))

/-- On a stream with no boolean-kind literal token, the main loop never hits
the fatal branch, whatever the writer does. -/
theorem write_source_noFatal {σ : Type} (w : Writer σ) :
    ∀ (n : Nat) (ts : List Token), ts.length ≤ n →
      (∀ t ∈ ts, ¬ t.kind = .Literal .Bool) → ∀ (c : CState) (s : σ) (m : String),
      ¬ write_source w ts c s = .error (.Fatal m) := by
  intro n
  induction n with
  | zero =>
      intro ts h hb c s m
      have hnil : ts = [] := List.length_eq_zero.mp (Nat.le_zero.mp h)
      subst hnil
      rw [write_source_nil]
      simp
  | succ n ih =>
      intro ts hlen hb c s m
      cases ts with
      | nil =>
          rw [write_source_nil]
          simp
      | cons t rest =>
          by_cases hu : t.kind = .Unknown
          · rw [write_source_unknown w rest c s hu]
            simp
          · by_cases he : t.kind = .Eof
            · rw [write_source_eof_tok w rest c s he]
              simp
            · rw [write_source_cons_step w rest c s hu he]
              cases hw : write_token w rest c t s with
              | error e =>
                  intro hcontra
                  have he2 : e = .Fatal m := by simpa using hcontra
                  subst he2
                  exact hb t (by simp) (write_token_fatal_kind w rest c t s m hw)
              | ok r =>
                  obtain ⟨rest', c', s'⟩ := r
                  show ¬ write_source w rest' c' s' = .error (.Fatal m)
                  have hb' : ∀ u ∈ rest', ¬ u.kind = .Literal .Bool := by
                    rcases write_token_consumes w rest c t s rest' c' s' hw with
                      rfl | htl
                    · exact fun u hu2 => hb u (by simp [hu2])
                    · intro u hu2
                      apply hb
                      rw [htl] at hu2
                      cases rest with
                      | nil => simp at hu2
                      | cons a r2 =>
                          simp at hu2
                          simp [hu2]
                  have hlen' : rest'.length ≤ n := by
                    have hl1 := write_token_length w rest c t s rest' c' s' hw
                    simp at hlen
                    omega
                  exact ih rest' hlen' hb' c' s' m

end Highlight

namespace Highlight

/-- When the writer fails, `write_token` returns exactly that I/O error,
whatever the token (except the fatal boolean literal, which panics before
writing, and lex errors discovered by `peek` first). -/
theorem write_token_fail_writer (e : IoErr) (rest : List Token) (c : CState)
    (t : Token) (h3 : ¬ t.kind = .Literal .Bool)
    (hrest : ∀ u ∈ rest, ¬ u.kind = .Unknown) :
    write_token (failWriter e) rest c t () = .error (.IoError e) := by
  obtain ⟨k, txt⟩ := t
  cases k <;>
    try (simp [write_token, emit, liftW, failWriter, Except.map, Except.bind]
         done)
  case BinOp op =>
    by_cases hop : op = .And ∨ op = .Star
    · cases rest with
      | nil =>
          simp [write_token, hop, peekT, eofToken, emit, liftW, failWriter,
            Except.map]
      | cons u rest2 =>
          have hu := hrest u (by simp)
          by_cases hw : u.kind = .Whitespace <;>
            simp [write_token, hop, peekT, hu, hw, emit, liftW, failWriter,
              Except.map]
    · simp [write_token, hop, emit, liftW, failWriter, Except.map]
  case Dollar =>
    cases rest with
    | nil =>
        simp [write_token, peekT, eofToken, Token.is_ident, emit, liftW,
          failWriter, Except.map]
    | cons u rest2 =>
        have hu := hrest u (by simp)
        by_cases hid : u.is_ident = true <;>
          simp [write_token, peekT, hu, hid, emit, liftW, failWriter, Except.map]
  case Pound =>
    cases rest with
    | nil => simp [write_token, peekT, eofToken, liftW, failWriter, Except.map]
    | cons u rest2 =>
        have hu := hrest u (by simp)
        by_cases hn : u.kind = .Not
        · cases rest2 with
          | nil =>
              simp [write_token, peekT, hu, hn, try_next_token, eofToken, liftW,
                failWriter, Except.map, Except.bind]
          | cons v rest3 =>
              have hv := hrest v (by simp)
              by_cases hb : v.kind = .OpenDelim .Bracket <;>
                simp [write_token, peekT, hu, hn, hb, hv, try_next_token, liftW,
                  failWriter, Except.map, Except.bind]
        · by_cases hb : u.kind = .OpenDelim .Bracket <;>
            simp [write_token, peekT, hu, hn, hb, liftW, failWriter, Except.map,
              Except.bind]
  case CloseDelim d =>
    cases d <;>
      first
        | (simp [write_token, emit, liftW, failWriter, Except.map]
           done)
        | (by_cases ha : c.inAttribute <;>
            simp [write_token, ha, emit, liftW, failWriter, Except.map,
              Except.bind])
  case Literal lit =>
    cases lit <;>
      first
        | (simp [write_token, emit, liftW, failWriter, Except.map]
           done)
        | (exact absurd rfl h3)
  case Ident name is_raw =>
    by_cases h1 : (name = "ref" ∨ name = "mut") ∧ is_raw = false
    · simp only [write_token]
      rw [if_pos h1]
      simp [emit, liftW, failWriter, Except.map]
    · by_cases h2 : name = "self" ∨ name = "Self"
      · simp only [write_token]
        rw [if_neg h1, if_pos h2]
        simp [emit, liftW, failWriter, Except.map]
      · by_cases h3b : (name = "false" ∨ name = "true") ∧ is_raw = false
        · simp only [write_token]
          rw [if_neg h1, if_neg h2, if_pos h3b]
          simp [emit, liftW, failWriter, Except.map]
        · by_cases h4 : name = "Option" ∨ name = "Result"
          · simp only [write_token]
            rw [if_neg h1, if_neg h2, if_neg h3b, if_pos h4]
            simp [emit, liftW, failWriter, Except.map]
          · by_cases h5 : name = "Some" ∨ name = "None" ∨ name = "Ok" ∨ name = "Err"
            · simp only [write_token]
              rw [if_neg h1, if_neg h2, if_neg h3b, if_neg h4, if_pos h5]
              simp [emit, liftW, failWriter, Except.map]
            · by_cases h6 : is_reserved_ident name is_raw = true
              · simp only [write_token]
                rw [if_neg h1, if_neg h2, if_neg h3b, if_neg h4, if_neg h5]
                simp [h6, emit, liftW, failWriter, Except.map]
              · by_cases h7 : c.inMacroNonterminal = true
                · simp only [write_token]
                  rw [if_neg h1, if_neg h2, if_neg h3b, if_neg h4, if_neg h5]
                  simp [h6, h7, emit, liftW, failWriter, Except.map]
                · cases rest with
                  | nil =>
                      simp only [write_token]
                      rw [if_neg h1, if_neg h2, if_neg h3b, if_neg h4, if_neg h5]
                      simp [h6, h7, peekT, eofToken, emit, liftW, failWriter,
                        Except.map]
                  | cons u rest2 =>
                      have hu := hrest u (by simp)
                      by_cases h8 : u.kind = .Not <;>
                        (simp only [write_token]
                         rw [if_neg h1, if_neg h2, if_neg h3b, if_neg h4, if_neg h5]
                         simp [h6, h7, h8, peekT, hu, emit, liftW, failWriter,
                           Except.map])

end Highlight

namespace Highlight

/-- C1 (amended): for every stream the Token Source can fully tokenize (no
`Unknown` token; also none of the boolean-literal tokens the Token Source
contract already rules out, and span texts matching the fixed strings the
code emits for `#`, `!`, `]` and shebangs, as the real lexer guarantees),
`write_source` terminates successfully, emits exactly one (text, category)
unit per source token, and the concatenation of the emitted texts equals the
HTML-ESCAPED original source text — equivalently, before escaping no source
character is dropped, duplicated or reordered.  The frozen claim says the
concatenation equals the source itself; the classifier escapes each snippet
(`Escape` in `write_token`), so that fails on any source containing an
HTML-significant character (see the counterexample). -/
theorem c1_classification_roundtrip_escaped (ts : List Token) (c : CState)
    (h : srcOk ts) :
    ∃ evs, write_source eventWriter ts c [] = .ok evs ∧
      (strTexts evs).length = ts.length ∧
      catTexts (strTexts evs) = escapeHtml (srcText ts) := by
  obtain ⟨new, heq, h1, h2⟩ := write_source_events ts.length ts le_rfl h c []
  exact ⟨new, by simpa using heq, h1, h2⟩

/-- C1 counterexample: for the source `<` (one `Lt` token) the single emitted
unit carries the escaped text, so the concatenation of emitted texts is
`&lt;`, not the original source `<`. -/
theorem c1_counterexample_escaping :
    write_source eventWriter [⟨.Lt, "<"⟩] newClassifier [] =
      .ok [.str "&lt;" Class.Op] ∧
    ¬ catTexts (strTexts [.str "&lt;" Class.Op]) = srcText [⟨.Lt, "<"⟩] := by
  constructor
  · rw [write_source_eq_fuel]
    decide
  · decide

/-- C1 witness: the amended round-trip theorem applied to the concrete token
stream of `println!("hi")`. -/
theorem c1_witness :
    ∃ evs, write_source eventWriter
        [⟨.Ident "println" false, "println"⟩, ⟨.Not, "!"⟩,
         ⟨.OpenDelim .Paren, "("⟩, ⟨.Literal .Str, "\"hi\""⟩,
         ⟨.CloseDelim .Paren, ")"⟩] newClassifier [] = .ok evs ∧
      (strTexts evs).length =
        ([⟨.Ident "println" false, "println"⟩, ⟨.Not, "!"⟩,
          ⟨.OpenDelim .Paren, "("⟩, ⟨.Literal .Str, "\"hi\""⟩,
          ⟨.CloseDelim .Paren, ")"⟩] : List Token).length ∧
      catTexts (strTexts evs) =
        escapeHtml (srcText
          [⟨.Ident "println" false, "println"⟩, ⟨.Not, "!"⟩,
           ⟨.OpenDelim .Paren, "("⟩, ⟨.Literal .Str, "\"hi\""⟩,
           ⟨.CloseDelim .Paren, ")"⟩]) :=
  c1_classification_roundtrip_escaped _ newClassifier (by decide)

/-- C2 (code bug): on an input whose token stream contains an `Unknown`-kind
token, the orchestrator discards the partial classified output and emits the
RAW source with no styling — but UNESCAPED: line 68 of the source runs
`write!(out, "<pre><code>{}</code></pre>", src)` with no `Escape` wrapper,
while the spec (and the claim) say the fallback substitutes the raw input
ESCAPED.  Here the classified prefix `a ` is discarded, and the full raw
source — including `<b>`, which any HTML escape must transform — is emitted
verbatim. -/
theorem c2_lex_error_fallback_unescaped :
    render_with_highlighting "a `<b>"
        [⟨.Ident "a" false, "a"⟩, ⟨.Whitespace, " "⟩, ⟨.Unknown, "`"⟩]
        Option.none Option.none Option.none =
      some "<pre><code>a `<b></code></pre>" ∧
    ¬ ("<pre><code>a `<b></code></pre>" : String) =
        "<pre><code>" ++ escapeHtml "a `<b>" ++ "</code></pre>" := by
  constructor
  · unfold render_with_highlighting
    rw [write_source_eq_fuel]
    decide
  · decide

/-- C3: when the Sink/Writer reports a write failure, the failure propagates
out of `write_source` as a hard `IoError` — no output value is returned —
unlike the lex-error case, where the orchestrator returns fallback markup.
The head token must be an ordinary token (not `Eof`, which ends the pass
before writing; not `Unknown`, which is a lex error; not the fatal boolean
literal), and the rest of the stream must hold no `Unknown` token, which a
lookahead would turn into a lex error before the first write. -/
theorem c3_sink_failure_propagates (e : IoErr) (t : Token) (rest : List Token)
    (c : CState)
    (h1 : ¬ t.kind = .Eof) (h2 : ¬ t.kind = .Unknown)
    (h3 : ¬ t.kind = .Literal .Bool)
    (hrest : ∀ u ∈ rest, ¬ u.kind = .Unknown) :
    write_source (failWriter e) (t :: rest) c () = .error (.IoError e) := by
  rw [write_source_cons_step (failWriter e) rest c () h2 h1,
    write_token_fail_writer e rest c t h3 hrest]

/-- C3 witness: a failing writer on the stream of a single comma. -/
theorem c3_witness :
    write_source (failWriter ⟨7⟩) [⟨.Comma, ","⟩] newClassifier () =
      .error (.IoError ⟨7⟩) :=
  c3_sink_failure_propagates ⟨7⟩ ⟨.Comma, ","⟩ [] newClassifier
    (by decide) (by decide) (by decide) (by simp)

/-- C5: a `&` or `*` token (`BinOp And`/`BinOp Star`) whose peeked successor
is not a whitespace token classifies as RefKeyWord; with a whitespace
successor it falls through to the generic Op bucket.  (The successor must
not be `Unknown`: `peek` would abort the pass with a lex error instead of
classifying, per the global error contract — `peekT ts = .ok pt` carries
that.) -/
theorem c5_ref_deref_peek_rule (ts : List Token) (c : CState) (t : Token)
    (evs : List OutEvent) (op : BinOpToken) (pt : Token)
    (hk : t.kind = .BinOp op) (hop : op = .And ∨ op = .Star)
    (hpeek : peekT ts = .ok pt) :
    (¬ pt.kind = .Whitespace →
      write_token eventWriter ts c t evs =
        .ok (ts, c, evs ++ [.str (escapeHtml t.text) Class.RefKeyWord])) ∧
    (pt.kind = .Whitespace →
      write_token eventWriter ts c t evs =
        .ok (ts, c, evs ++ [.str (escapeHtml t.text) Class.Op])) := by
  obtain ⟨k, txt⟩ := t
  simp at hk
  subst hk
  constructor
  · intro hw
    simp [write_token, hop, hpeek, hw, emit, liftW, eventWriter, Except.map]
  · intro hw
    simp [write_token, hop, hpeek, hw, emit, liftW, eventWriter, Except.map]

/-- C5 witness: in `&x` (peeked successor: the identifier `x`) the `&`
classifies as RefKeyWord; in `a & b` (peeked successor: whitespace) the `&`
classifies as Op.  (`&` itself is emitted escaped, as `&amp;`.) -/
theorem c5_witness :
    (write_token eventWriter [⟨.Ident "x" false, "x"⟩] newClassifier
        ⟨.BinOp .And, "&"⟩ [] =
      .ok ([⟨.Ident "x" false, "x"⟩], newClassifier,
        [] ++ [.str (escapeHtml "&") Class.RefKeyWord])) ∧
    (write_token eventWriter [⟨.Whitespace, " "⟩, ⟨.Ident "b" false, "b"⟩]
        newClassifier ⟨.BinOp .And, "&"⟩ [] =
      .ok ([⟨.Whitespace, " "⟩, ⟨.Ident "b" false, "b"⟩], newClassifier,
        [] ++ [.str (escapeHtml "&") Class.Op])) :=
  ⟨(c5_ref_deref_peek_rule [⟨.Ident "x" false, "x"⟩] newClassifier
      ⟨.BinOp .And, "&"⟩ [] .And ⟨.Ident "x" false, "x"⟩ rfl (Or.inl rfl)
      (by decide)).1 (by decide),
   (c5_ref_deref_peek_rule [⟨.Whitespace, " "⟩, ⟨.Ident "b" false, "b"⟩]
      newClassifier ⟨.BinOp .And, "&"⟩ [] .And ⟨.Whitespace, " "⟩ rfl
      (Or.inl rfl) (by decide)).2 rfl⟩

/-- C7 (amended): a shebang token is emitted as exactly one unit with
category None and no further classification occurs (stream and flags are
untouched) — but the emitted text is the HTML-ESCAPED shebang text, not the
verbatim text: the source wraps it in `Escape` like any other snippet.  The
frozen claim's "never escaped" fails whenever the shebang holds an
HTML-significant character (see the counterexample). -/
theorem c7_shebang_escaped_none (ts : List Token) (c : CState)
    (evs : List OutEvent) (sym txt : String) :
    write_token eventWriter ts c ⟨.Shebang sym, txt⟩ evs =
      .ok (ts, c, evs ++ [.str (escapeHtml sym) Class.None]) := by
  simp [write_token, liftW, eventWriter, Except.map]

/-- C7 counterexample: a shebang text holding `<` is emitted escaped
(`&lt;`), not verbatim. -/
theorem c7_counterexample_shebang_escaped :
    write_token eventWriter [] newClassifier
        ⟨.Shebang "#!/bin/a<b", "#!/bin/a<b"⟩ [] =
      .ok ([], newClassifier, [.str "#!/bin/a&lt;b" Class.None]) ∧
    ¬ ("#!/bin/a&lt;b" : String) = "#!/bin/a<b" := by
  constructor
  · decide
  · decide

/-- C9: `render_with_highlighting` is deterministic — running it twice on
equal inputs (source text, token stream, class, extension, tooltip) yields
byte-identical output.  As in the source, each invocation constructs a fresh
Token Source and a fresh `Classifier::new` state; no mutable state survives
an invocation, so the model is a pure function of its arguments. -/
theorem c9_render_deterministic (src src2 : String)
    (tokens tokens2 : List Token) (cls cls2 ext ext2 : Option String)
    (tip tip2 : Option (String × String))
    (h1 : src = src2) (h2 : tokens = tokens2) (h3 : cls = cls2)
    (h4 : ext = ext2) (h5 : tip = tip2) :
    render_with_highlighting src tokens cls ext tip =
      render_with_highlighting src2 tokens2 cls2 ext2 tip2 := by
  subst h1
  subst h2
  subst h3
  subst h4
  subst h5
  rfl

/-- C9 witness: two invocations on the same concrete input agree. -/
theorem c9_witness :
    render_with_highlighting "x" [⟨.Ident "x" false, "x"⟩] Option.none
        Option.none Option.none =
      render_with_highlighting "x" [⟨.Ident "x" false, "x"⟩] Option.none
        Option.none Option.none :=
  c9_render_deterministic _ _ _ _ _ _ _ _ _ _ rfl rfl rfl rfl rfl

/-- C10 (implicit): a `#` token peeking `!` consumes the `!` even when the
token after the `!` is not an opening bracket; both `#` and `!` are emitted
as plain None-category text, `in_attribute` stays untouched (flags are
returned unchanged) and no Attribute span is entered. -/
theorem c10_pound_bang_no_bracket (rest : List Token) (c : CState)
    (evs : List OutEvent) (ptxt ntxt : String) (pt2 : Token)
    (hpeek : peekT rest = .ok pt2) (hnb : ¬ pt2.kind = .OpenDelim .Bracket) :
    write_token eventWriter (⟨.Not, ntxt⟩ :: rest) c ⟨.Pound, ptxt⟩ evs =
      .ok (rest, c, evs ++ [.str "#" Class.None, .str "!" Class.None]) := by
  have hp1 : peekT (⟨.Not, ntxt⟩ :: rest) = .ok ⟨.Not, ntxt⟩ := by simp [peekT]
  have ht1 : try_next_token (⟨.Not, ntxt⟩ :: rest) = .ok (⟨.Not, ntxt⟩, rest) := by
    simp [try_next_token]
  simp [write_token, hp1, ht1, hpeek, hnb, liftW, eventWriter, Except.map,
    Except.bind]

/-- C10 witness: `# ! x` — the `!` is consumed and both marks are plain
text; the flags are unchanged. -/
theorem c10_witness :
    write_token eventWriter [⟨.Not, "!"⟩, ⟨.Ident "x" false, "x"⟩]
        newClassifier ⟨.Pound, "#"⟩ [] =
      .ok ([⟨.Ident "x" false, "x"⟩], newClassifier,
        [] ++ [.str "#" Class.None, .str "!" Class.None]) :=
  c10_pound_bang_no_bracket [⟨.Ident "x" false, "x"⟩] newClassifier []
    "#" "!" ⟨.Ident "x" false, "x"⟩ (by decide) (by decide)

end Highlight

namespace Highlight

/-- C8: a literal-kind token reporting boolean kind makes `write_token`
fatal (the modelled panic), whatever the writer and state; and under the
Token Source precondition that boolean literals never arrive as literal-kind
tokens, no run of `write_source` can reach that branch. -/
theorem c8_bool_literal_fatal_unreachable {σ : Type} (w : Writer σ) :
    (∀ (ts : List Token) (c : CState) (s : σ) (txt : String),
      write_token w ts c ⟨.Literal .Bool, txt⟩ s =
        .error (.Fatal "literal token contains Lit.Bool")) ∧
    (∀ (ts : List Token), (∀ t ∈ ts, ¬ t.kind = .Literal .Bool) →
      ∀ (c : CState) (s : σ) (m : String),
        ¬ write_source w ts c s = .error (.Fatal m)) := by
  constructor
  · intro ts c s txt
    rfl
  · intro ts hb c s m
    exact write_source_noFatal w ts.length ts le_rfl hb c s m

/-- C8 witness: the fatal branch at a concrete boolean literal, and the
absence of the panic on a concrete boolean-literal-free stream. -/
theorem c8_witness :
    (write_token eventWriter [] newClassifier ⟨.Literal .Bool, "true"⟩ [] =
      .error (.Fatal "literal token contains Lit.Bool")) ∧
    ¬ write_source eventWriter [⟨.Comma, ","⟩] newClassifier [] =
        .error (.Fatal "literal token contains Lit.Bool") :=
  ⟨(c8_bool_literal_fatal_unreachable eventWriter).1 [] newClassifier [] "true",
   (c8_bool_literal_fatal_unreachable eventWriter).2 [⟨.Comma, ","⟩]
     (by decide) newClassifier [] "literal token contains Lit.Bool"⟩

/-- C6 (amended): a non-keyword, non-prelude identifier whose peeked
successor is `!` sets `in_macro` and classifies as Macro, PROVIDED no
macro-nonterminal placeholder is pending (`in_macro_nonterminal` false — a
pending `$` placeholder takes precedence and classifies the identifier as
MacroNonTerminal instead, see the counterexample); a `!` seen while
`in_macro` is set clears the flag and classifies as Macro; and in the
concrete stream of `println!("hi")`, `println` and `!` classify as Macro and
`"hi"` as String. -/
theorem c6_macro_bang_amended (ts2 : List Token) (c : CState)
    (evs : List OutEvent) (name txt ntxt : String)
    (hname : ¬ name ∈ ["ref", "mut", "self", "Self", "false", "true",
      "Option", "Result", "Some", "None", "Ok", "Err"])
    (hkw : isReservedKw name = false)
    (hnt : c.inMacroNonterminal = false) :
    (write_token eventWriter (⟨.Not, ntxt⟩ :: ts2) c ⟨.Ident name false, txt⟩
        evs =
      .ok (⟨.Not, ntxt⟩ :: ts2, { c with inMacro := true },
        evs ++ [.str (escapeHtml txt) Class.Macro])) ∧
    (∀ (ts : List Token) (c2 : CState) (etxt : String) (evs2 : List OutEvent),
      c2.inMacro = true →
      write_token eventWriter ts c2 ⟨.Not, etxt⟩ evs2 =
        .ok (ts, { c2 with inMacro := false },
          evs2 ++ [.str (escapeHtml etxt) Class.Macro])) ∧
    write_source eventWriter
        [⟨.Ident "println" false, "println"⟩, ⟨.Not, "!"⟩,
         ⟨.OpenDelim .Paren, "("⟩, ⟨.Literal .Str, "\"hi\""⟩,
         ⟨.CloseDelim .Paren, ")"⟩] newClassifier [] =
      .ok [.str "println" Class.Macro, .str "!" Class.Macro,
           .str "(" Class.None, .str "&quot;hi&quot;" Class.String,
           .str ")" Class.None] := by
  simp only [List.mem_cons, List.not_mem_nil, or_false] at hname
  push_neg at hname
  obtain ⟨n1, n2, n3, n4, n5, n6, n7, n8, n9, n10, n11, n12⟩ := hname
  refine ⟨?_, ?_, ?_⟩
  · have hc1 : ¬ ((name = "ref" ∨ name = "mut") ∧ True) := by
      rintro ⟨hh, -⟩
      rcases hh with h | h
      · exact n1 h
      · exact n2 h
    have hc2 : ¬ (name = "self" ∨ name = "Self") := by
      rintro (h | h)
      · exact n3 h
      · exact n4 h
    have hc3 : ¬ ((name = "false" ∨ name = "true") ∧ True) := by
      rintro ⟨hh, -⟩
      rcases hh with h | h
      · exact n5 h
      · exact n6 h
    have hc4 : ¬ (name = "Option" ∨ name = "Result") := by
      rintro (h | h)
      · exact n7 h
      · exact n8 h
    have hc5 : ¬ (name = "Some" ∨ name = "None" ∨ name = "Ok" ∨ name = "Err") := by
      rintro (h | h | h | h)
      · exact n9 h
      · exact n10 h
      · exact n11 h
      · exact n12 h
    have hc6 : ¬ is_reserved_ident name false = true := by
      simp [is_reserved_ident, hkw]
    have hp1 : peekT (⟨.Not, ntxt⟩ :: ts2) = .ok ⟨.Not, ntxt⟩ := by simp [peekT]
    simp only [write_token]
    rw [if_neg hc1, if_neg hc2, if_neg hc3, if_neg hc4, if_neg hc5]
    simp [hc6, hnt, hp1, emit, liftW, eventWriter, Except.map]
  · intro ts c2 etxt evs2 hm
    simp [write_token, hm, emit, liftW, eventWriter, Except.map]
  · rw [write_source_eq_fuel]
    decide

/-- C6 counterexample: in the stream of `$a!` the identifier `a` is followed
by `!` but a macro-nonterminal placeholder is pending, so `a` classifies as
MacroNonTerminal (not Macro), `in_macro` is never set, and the `!` then
classifies as Op (not Macro) — against the claim's unconditional rule. -/
theorem c6_counterexample_nonterminal_priority :
    write_source eventWriter
        [⟨.Dollar, "$"⟩, ⟨.Ident "a" false, "a"⟩, ⟨.Not, "!"⟩]
        newClassifier [] =
      .ok [.str "$" Class.MacroNonTerminal, .str "a" Class.MacroNonTerminal,
           .str "!" Class.Op] ∧
    ¬ (Class.MacroNonTerminal = Class.Macro) ∧ ¬ (Class.Op = Class.Macro) := by
  refine ⟨?_, by decide, by decide⟩
  rw [write_source_eq_fuel]
  decide

/-- C6 witness: the amended per-token rules applied at `println` followed by
`!`, and at a `!` seen with `in_macro` set. -/
theorem c6_witness :
    (write_token eventWriter [⟨.Not, "!"⟩] newClassifier
        ⟨.Ident "println" false, "println"⟩ [] =
      .ok ([⟨.Not, "!"⟩], { newClassifier with inMacro := true },
        [] ++ [.str (escapeHtml "println") Class.Macro])) ∧
    (write_token eventWriter [] ⟨false, true, false⟩ ⟨.Not, "!"⟩ [] =
      .ok ([], { (⟨false, true, false⟩ : CState) with inMacro := false },
        [] ++ [.str (escapeHtml "!") Class.Macro])) :=
  ⟨(c6_macro_bang_amended [] newClassifier [] "println" "println" "!"
      (by decide) (by decide) rfl).1,
   (c6_macro_bang_amended [] newClassifier [] "println" "println" "!"
      (by decide) (by decide) rfl).2.1 [] ⟨false, true, false⟩ "!" [] rfl⟩

end Highlight

namespace Highlight

/-- C4 (amended): for an attribute run opened by `#[` or `#![` and closed by
the first `]`, PROVIDED no further `#[`/`#![` opener occurs inside the run —
bare `#` marks and `#!` pairs not followed by `[` are allowed inside; a
nested opener re-runs `enter_span(Attribute)` while the single `]` still
exits only once, see the counterexample — the whole run shares one Attribute
wrapper: opening emits exactly one `enter_span(Attribute)` with the opener
marks (`#`, or `#` and `!`, then `[`) as plain None-category units inside
it, every inner token emits only plain units whose category is never
Attribute and no span bookkeeping, and the first `]` clears the flag, emits
`]` as plain text and exactly one `exit_span`; processing then continues
with `in_attribute` false. -/
theorem c4_attribute_span_amended (pound lbr rbr : Token)
    (mid post : List Token) (c : CState)
    (hp : pound.kind = .Pound) (hl : lbr.kind = .OpenDelim .Bracket)
    (hlt : lbr.text = "[") (hr : rbr.kind = .CloseDelim .Bracket)
    (hmid : midRunB mid = true) (hpost : srcOk post) :
    (∃ midEvs postEvs,
      write_source eventWriter (pound :: lbr :: (mid ++ rbr :: post)) c [] =
        .ok ([.enter .Attribute, .str "#" Class.None, .str "[" Class.None] ++
          midEvs ++ [.str "]" Class.None, .exit] ++ postEvs) ∧
      (∀ ev ∈ midEvs, ∃ x kl, ev = .str x kl ∧ ¬ kl = Class.Attribute)) ∧
    (∀ bang : Token, bang.kind = .Not →
      ∃ midEvs postEvs,
        write_source eventWriter
            (pound :: bang :: lbr :: (mid ++ rbr :: post)) c [] =
          .ok ([.enter .Attribute, .str "#" Class.None, .str "!" Class.None,
                .str "[" Class.None] ++
            midEvs ++ [.str "]" Class.None, .exit] ++ postEvs) ∧
        (∀ ev ∈ midEvs, ∃ x kl, ev = .str x kl ∧ ¬ kl = Class.Attribute)) := by
  obtain ⟨pk, ptxt⟩ := pound
  obtain ⟨lk, ltxt⟩ := lbr
  simp at hp hl hlt
  subst hp
  subst hl
  subst hlt
  constructor
  · have h1 : write_source eventWriter
        (⟨.Pound, ptxt⟩ :: ⟨.OpenDelim .Bracket, "["⟩ :: (mid ++ rbr :: post))
        c [] =
        write_source eventWriter (mid ++ rbr :: post)
          { c with inAttribute := true }
          [.enter .Attribute, .str "#" Class.None, .str "[" Class.None] := by
      rw [write_source_cons_step eventWriter
        (⟨.OpenDelim .Bracket, "["⟩ :: (mid ++ rbr :: post)) c [] (by simp)
        (by simp)]
      have hwt1 : write_token eventWriter
          (⟨.OpenDelim .Bracket, "["⟩ :: (mid ++ rbr :: post)) c
          ⟨.Pound, ptxt⟩ [] =
          .ok (⟨.OpenDelim .Bracket, "["⟩ :: (mid ++ rbr :: post),
            { c with inAttribute := true },
            [.enter .Attribute, .str "#" Class.None]) := rfl
      rw [hwt1]
      show write_source eventWriter
          (⟨.OpenDelim .Bracket, "["⟩ :: (mid ++ rbr :: post))
          { c with inAttribute := true }
          [.enter .Attribute, .str "#" Class.None] = _
      rw [write_source_cons_step eventWriter (mid ++ rbr :: post)
        { c with inAttribute := true } [.enter .Attribute, .str "#" Class.None]
        (by simp) (by simp)]
      have hwt2 : write_token eventWriter (mid ++ rbr :: post)
          { c with inAttribute := true } ⟨.OpenDelim .Bracket, "["⟩
          [.enter .Attribute, .str "#" Class.None] =
          .ok (mid ++ rbr :: post, { c with inAttribute := true },
            [.enter .Attribute, .str "#" Class.None, .str "[" Class.None]) :=
        rfl
      rw [hwt2]
    obtain ⟨midEvs, postEvs, htail, hstrs⟩ :=
      attr_run_tail mid post rbr { c with inAttribute := true }
        [.enter .Attribute, .str "#" Class.None, .str "[" Class.None] hr rfl
        hmid hpost
    exact ⟨midEvs, postEvs, by rw [h1, htail], hstrs⟩
  · intro bang hbang
    obtain ⟨bk, btxt⟩ := bang
    simp at hbang
    subst hbang
    have h1 : write_source eventWriter
        (⟨.Pound, ptxt⟩ :: ⟨.Not, btxt⟩ :: ⟨.OpenDelim .Bracket, "["⟩ ::
          (mid ++ rbr :: post)) c [] =
        write_source eventWriter (mid ++ rbr :: post)
          { c with inAttribute := true }
          [.enter .Attribute, .str "#" Class.None, .str "!" Class.None,
           .str "[" Class.None] := by
      rw [write_source_cons_step eventWriter
        (⟨.Not, btxt⟩ :: ⟨.OpenDelim .Bracket, "["⟩ :: (mid ++ rbr :: post))
        c [] (by simp) (by simp)]
      have hwt1 : write_token eventWriter
          (⟨.Not, btxt⟩ :: ⟨.OpenDelim .Bracket, "["⟩ :: (mid ++ rbr :: post))
          c ⟨.Pound, ptxt⟩ [] =
          .ok (⟨.OpenDelim .Bracket, "["⟩ :: (mid ++ rbr :: post),
            { c with inAttribute := true },
            [.enter .Attribute, .str "#" Class.None, .str "!" Class.None]) :=
        rfl
      rw [hwt1]
      show write_source eventWriter
          (⟨.OpenDelim .Bracket, "["⟩ :: (mid ++ rbr :: post))
          { c with inAttribute := true }
          [.enter .Attribute, .str "#" Class.None, .str "!" Class.None] = _
      rw [write_source_cons_step eventWriter (mid ++ rbr :: post)
        { c with inAttribute := true }
        [.enter .Attribute, .str "#" Class.None, .str "!" Class.None]
        (by simp) (by simp)]
      have hwt2 : write_token eventWriter (mid ++ rbr :: post)
          { c with inAttribute := true } ⟨.OpenDelim .Bracket, "["⟩
          [.enter .Attribute, .str "#" Class.None, .str "!" Class.None] =
          .ok (mid ++ rbr :: post, { c with inAttribute := true },
            [.enter .Attribute, .str "#" Class.None, .str "!" Class.None,
             .str "[" Class.None]) := rfl
      rw [hwt2]
    obtain ⟨midEvs, postEvs, htail, hstrs⟩ :=
      attr_run_tail mid post rbr { c with inAttribute := true }
        [.enter .Attribute, .str "#" Class.None, .str "!" Class.None,
         .str "[" Class.None] hr rfl hmid hpost
    exact ⟨midEvs, postEvs, by rw [h1, htail], hstrs⟩

/-- C4 counterexample: in the run `#[#[]]` the inner `#[` (seen while
`in_attribute` is already true) emits a second `enter_span(Attribute)`,
while the first `]` emits the only `exit_span` — two enters, one exit — so
the run from `#` to `]` does not share one Attribute wrapper as the claim
states. -/
theorem c4_counterexample_nested_pound :
    write_source eventWriter
        [⟨.Pound, "#"⟩, ⟨.OpenDelim .Bracket, "["⟩, ⟨.Pound, "#"⟩,
         ⟨.OpenDelim .Bracket, "["⟩, ⟨.CloseDelim .Bracket, "]"⟩,
         ⟨.CloseDelim .Bracket, "]"⟩] newClassifier [] =
      .ok [.enter .Attribute, .str "#" Class.None, .str "[" Class.None,
           .enter .Attribute, .str "#" Class.None, .str "[" Class.None,
           .str "]" Class.None, .exit, .str "]" Class.None] ∧
    enterCount
        [.enter .Attribute, .str "#" Class.None, .str "[" Class.None,
         .enter .Attribute, .str "#" Class.None, .str "[" Class.None,
         .str "]" Class.None, .exit, .str "]" Class.None] = 2 ∧
    exitCount
        [.enter .Attribute, .str "#" Class.None, .str "[" Class.None,
         .enter .Attribute, .str "#" Class.None, .str "[" Class.None,
         .str "]" Class.None, .exit, .str "]" Class.None] = 1 := by
  refine ⟨?_, by decide, by decide⟩
  rw [write_source_eq_fuel]
  decide

/-- C4 witness: the amended theorem applied to the token streams of
`#[derive(Debug)#]` — whose inside holds a bare non-opener `#` — and of
`#![feature(x)]`. -/
theorem c4_witness :
    (∃ midEvs postEvs,
      write_source eventWriter
          (⟨.Pound, "#"⟩ :: ⟨.OpenDelim .Bracket, "["⟩ ::
            ([⟨.Ident "derive" false, "derive"⟩, ⟨.OpenDelim .Paren, "("⟩,
              ⟨.Ident "Debug" false, "Debug"⟩, ⟨.CloseDelim .Paren, ")"⟩,
              ⟨.Pound, "#"⟩] ++
              ⟨.CloseDelim .Bracket, "]"⟩ :: [])) newClassifier [] =
        .ok ([.enter .Attribute, .str "#" Class.None, .str "[" Class.None] ++
          midEvs ++ [.str "]" Class.None, .exit] ++ postEvs) ∧
      (∀ ev ∈ midEvs, ∃ x kl, ev = .str x kl ∧ ¬ kl = Class.Attribute)) ∧
    (∃ midEvs postEvs,
      write_source eventWriter
          (⟨.Pound, "#"⟩ :: ⟨.Not, "!"⟩ :: ⟨.OpenDelim .Bracket, "["⟩ ::
            ([⟨.Ident "feature" false, "feature"⟩, ⟨.OpenDelim .Paren, "("⟩,
              ⟨.Ident "x" false, "x"⟩, ⟨.CloseDelim .Paren, ")"⟩] ++
              ⟨.CloseDelim .Bracket, "]"⟩ :: [])) newClassifier [] =
        .ok ([.enter .Attribute, .str "#" Class.None, .str "!" Class.None,
              .str "[" Class.None] ++
          midEvs ++ [.str "]" Class.None, .exit] ++ postEvs) ∧
      (∀ ev ∈ midEvs, ∃ x kl, ev = .str x kl ∧ ¬ kl = Class.Attribute)) :=
  ⟨(c4_attribute_span_amended ⟨.Pound, "#"⟩ ⟨.OpenDelim .Bracket, "["⟩
      ⟨.CloseDelim .Bracket, "]"⟩
      [⟨.Ident "derive" false, "derive"⟩, ⟨.OpenDelim .Paren, "("⟩,
       ⟨.Ident "Debug" false, "Debug"⟩, ⟨.CloseDelim .Paren, ")"⟩,
       ⟨.Pound, "#"⟩] []
      newClassifier rfl rfl rfl rfl (by decide) (by decide)).1,
   (c4_attribute_span_amended ⟨.Pound, "#"⟩ ⟨.OpenDelim .Bracket, "["⟩
      ⟨.CloseDelim .Bracket, "]"⟩
      [⟨.Ident "feature" false, "feature"⟩, ⟨.OpenDelim .Paren, "("⟩,
       ⟨.Ident "x" false, "x"⟩, ⟨.CloseDelim .Paren, ")"⟩] []
      newClassifier rfl rfl rfl rfl (by decide) (by decide)).2
     ⟨.Not, "!"⟩ rfl⟩

end Highlight
